import Mathlib

/-!
Verification of the calendar arithmetic module (src/utils/date.ts).

We shallow-embed the date helpers of `src/utils/date.ts` over `ℤ`
timestamps (milliseconds since the Unix epoch, the value of
`Date.prototype.getTime`).  The host `Date` calendar-field accessors
(`getMonth`, `setUTCHours`, ...) are external platform collaborators of the
repository; we embed their ECMAScript semantics (proleptic Gregorian
calendar, `MakeDay` / `MakeTime` / `MakeDate`) directly, with the host's
local time zone modelled as a fixed offset `tz` in milliseconds east of
UTC (the embedding has no daylight-saving schedule; `Date` range clipping
to ±8.64e15 is idealised away, timestamps are unbounded).

All division below is `Int./` = `Int.ediv` with a positive constant
divisor, which coincides with the mathematical floor division / modulo
used by ECMAScript's `Day`, `MakeDay`, `TimeWithinDay`, etc.
-/

namespace IgenDate

/-! ## Gregorian calendar base -/

/-- Is `y` a leap year (proleptic Gregorian rule)? -/
def isLeap (y : ℤ) : Bool := (y % 4 == 0 && y % 100 != 0) || y % 400 == 0

/-- 1 on leap years, 0 otherwise. -/
def leapBit (y : ℤ) : ℤ := if isLeap y then 1 else 0

/-- Number of days in year `y`. -/
def daysInYear (y : ℤ) : ℤ := 365 + leapBit y

/-- Days from 0000-01-01 to `y`-01-01 in the proleptic Gregorian calendar
(valid for every integer `y`, also negative ones). -/
def daysToYear (y : ℤ) : ℤ :=
  365 * y + (y + 3) / 4 - (y + 99) / 100 + (y + 399) / 400

/-- Days from 0000-01-01 to 1970-01-01 (`daysToYear 1970`). -/
def epochDays : ℤ := 719528

/-- Day number (days since the Unix epoch) of `y`-01-01. -/
def daysBeforeYear (y : ℤ) : ℤ := daysToYear y - epochDays

/-- Cumulative days before (1-based) month `m` in a year whose leap bit is
`L`, for `1 ≤ m ≤ 13`; `monthTable L 13` is the year length. -/
def monthTable (L m : ℤ) : ℤ :=
  if m ≤ 2 then 31 * (m - 1) else 59 + L + (153 * (m - 3) + 2) / 5

/-- Cumulative days before (1-based) month `m` of year `y`. -/
def daysBeforeMonth (y m : ℤ) : ℤ := monthTable (leapBit y) m

/-- Length of (1-based) month `m` of year `y`. -/
def daysInMonth (y m : ℤ) : ℤ := daysBeforeMonth y (m + 1) - daysBeforeMonth y m

/-- The (1-based) month containing 0-based day-of-year `doy` for leap bit
`L`. -/
def monthOfDoyT (L doy : ℤ) : ℤ :=
  if doy < 31 then 1 else if doy < 59 + L then 2 else 3 + (5 * (doy - 59 - L) + 2) / 153

/-- The (1-based) month of year `y` containing 0-based day-of-year `doy`. -/
def monthOfDoy (y doy : ℤ) : ℤ := monthOfDoyT (leapBit y) doy

/-- The year containing day number `z` (days since the Unix epoch):
a divisor-based first guess, corrected downwards by at most one. -/
def yearOfDay (z : ℤ) : ℤ :=
  let y0 := (400 * (z + epochDays) + 396) / 146097
  if z + epochDays < daysToYear y0 then y0 - 1 else y0

/-- A calendar date: year, 1-based month, 1-based day-of-month. -/
structure Ymd where
  year : ℤ
  month : ℤ
  day : ℤ
deriving DecidableEq, Repr

/-- Calendar date of day number `z` (ECMAScript `YearFromTime` /
`MonthFromTime` / `DateFromTime` composed over the day number). -/
def civilFromDays (z : ℤ) : Ymd :=
  let y := yearOfDay z
  let doy := z - daysBeforeYear y
  let m := monthOfDoy y doy
  ⟨y, m, doy - daysBeforeMonth y m + 1⟩

/-- Day number of the calendar date `(y, m, d)` (`m` 1-based in 1..12,
`d` arbitrary — days carry, exactly as in ECMAScript `MakeDay`). -/
def daysFromCivil (y m d : ℤ) : ℤ := daysBeforeYear y + daysBeforeMonth y m + d - 1

/-- ECMAScript `MakeDay`: `m0` is the 0-based month and may be any integer
(it carries into the year); `d` likewise carries as a day count. -/
def makeDay (y m0 d : ℤ) : ℤ :=
  daysFromCivil (y + m0 / 12) (m0 % 12 + 1) d

/-! ## Characterisation lemmas for the calendar base -/

theorem daysToYear_succ (y : ℤ) : daysToYear (y + 1) = daysToYear y + 365 + leapBit y := by
  simp only [daysToYear, leapBit, isLeap, Bool.or_eq_true, Bool.and_eq_true, beq_iff_eq,
    bne_iff_ne, ne_eq]
  split_ifs <;> omega

theorem daysToYear_mono {y1 y2 : ℤ} (h : y1 ≤ y2) : daysToYear y1 ≤ daysToYear y2 := by
  simp only [daysToYear]
  omega

theorem leapBit_nonneg (y : ℤ) : 0 ≤ leapBit y ∧ leapBit y ≤ 1 := by
  simp only [leapBit]; split_ifs <;> omega

/-- The corrected divisor guess lands the year bracket exactly. -/
theorem yearOfDay_spec (z : ℤ) :
    daysBeforeYear (yearOfDay z) ≤ z ∧ z < daysBeforeYear (yearOfDay z + 1) := by
  simp only [yearOfDay, daysBeforeYear, epochDays]
  set a := (400 * (z + 719528) + 396) / 146097 with ha
  split_ifs with h
  · refine ⟨?_, ?_⟩
    · simp only [daysToYear] at *
      omega
    · have e : a - 1 + 1 = a := by ring
      rw [e]
      omega
  · refine ⟨?_, ?_⟩
    · omega
    · simp only [daysToYear] at *
      omega

theorem yearOfDay_eq (z y : ℤ) (h1 : daysBeforeYear y ≤ z)
    (h2 : z < daysBeforeYear (y + 1)) : yearOfDay z = y := by
  have hs := yearOfDay_spec z
  rcases lt_trichotomy (yearOfDay z) y with hlt | heq | hgt
  · have hle : yearOfDay z + 1 ≤ y := by omega
    have := daysToYear_mono hle
    simp only [daysBeforeYear] at *
    omega
  · exact heq
  · have hle : y + 1 ≤ yearOfDay z := by omega
    have := daysToYear_mono hle
    simp only [daysBeforeYear] at *
    omega

theorem monthTable_lt_succ {L : ℤ} (hL : 0 ≤ L) {m : ℤ} (hm : 1 ≤ m ∧ m ≤ 12) :
    monthTable L m < monthTable L (m + 1) := by
  unfold monthTable
  split_ifs <;> omega

theorem monthTable_mono {L : ℤ} (hL : 0 ≤ L) {m1 m2 : ℤ} (h : m1 ≤ m2) (h1 : 1 ≤ m1)
    (h2 : m2 ≤ 13) : monthTable L m1 ≤ monthTable L m2 := by
  unfold monthTable
  split_ifs <;> omega

/-- `monthOfDoyT` lands the month bracket exactly. -/
theorem monthOfDoyT_spec {L doy : ℤ} (hL : 0 ≤ L ∧ L ≤ 1) (h0 : 0 ≤ doy)
    (h1 : doy < 365 + L) :
    1 ≤ monthOfDoyT L doy ∧ monthOfDoyT L doy ≤ 12 ∧
      monthTable L (monthOfDoyT L doy) ≤ doy ∧
      doy < monthTable L (monthOfDoyT L doy + 1) := by
  unfold monthOfDoyT monthTable
  split_ifs <;> omega

theorem monthOfDoyT_eq {L m doy : ℤ} (hL : 0 ≤ L ∧ L ≤ 1) (hm : 1 ≤ m ∧ m ≤ 12)
    (h1 : monthTable L m ≤ doy) (h2 : doy < monthTable L (m + 1)) :
    monthOfDoyT L doy = m := by
  unfold monthOfDoyT at *
  unfold monthTable at *
  split_ifs at * <;> omega

/-- Round trip: the calendar date of a day number built from a normalised
calendar date is that date. -/
theorem civilFromDays_daysFromCivil {y m k : ℤ} (hm : 1 ≤ m ∧ m ≤ 12)
    (hk : 0 ≤ k ∧ k < daysInMonth y m) :
    civilFromDays (daysFromCivil y m (k + 1)) = ⟨y, m, k + 1⟩ := by
  have hL := leapBit_nonneg y
  have hmt := monthTable_mono hL.1 (show m + 1 ≤ (13 : ℤ) by omega)
    (show (1 : ℤ) ≤ m + 1 by omega) (le_refl 13)
  have hmt0 := monthTable_mono hL.1 (show (1 : ℤ) ≤ m by omega)
    (le_refl 1) (show m ≤ (13 : ℤ) by omega)
  have hyr : yearOfDay (daysFromCivil y m (k + 1)) = y := by
    apply yearOfDay_eq
    · simp only [daysFromCivil, daysBeforeMonth, daysBeforeYear] at *
      simp only [monthTable] at *
      split_ifs at * <;> omega
    · have hy1 : daysBeforeYear (y + 1) = daysBeforeYear y + 365 + leapBit y := by
        simp only [daysBeforeYear, daysToYear_succ]; ring
      simp only [daysFromCivil, daysBeforeMonth, daysInMonth, daysBeforeYear] at *
      simp only [monthTable] at *
      split_ifs at * <;> omega
  have hdoy : daysFromCivil y m (k + 1) - daysBeforeYear y
      = daysBeforeMonth y m + k := by
    simp only [daysFromCivil]; ring
  have hmo : monthOfDoy y (daysBeforeMonth y m + k) = m := by
    apply monthOfDoyT_eq hL hm
    · have := hmt0; simp only [daysBeforeMonth] at *; omega
    · simp only [daysBeforeMonth, daysInMonth] at *; omega
  simp only [civilFromDays, hyr, hdoy, hmo]
  rw [Ymd.mk.injEq]
  exact ⟨rfl, rfl, by ring⟩

/-- Round trip: rebuilding the day number from the calendar date of a day
number gives it back. -/
theorem daysFromCivil_civilFromDays (z : ℤ) :
    daysFromCivil (civilFromDays z).year (civilFromDays z).month (civilFromDays z).day
      = z := by
  have hy := yearOfDay_spec z
  have hL := leapBit_nonneg (yearOfDay z)
  have hy1 : daysBeforeYear (yearOfDay z + 1)
      = daysBeforeYear (yearOfDay z) + 365 + leapBit (yearOfDay z) := by
    simp only [daysBeforeYear, daysToYear_succ]; ring
  have hdoy : 0 ≤ z - daysBeforeYear (yearOfDay z) ∧
      z - daysBeforeYear (yearOfDay z) < 365 + leapBit (yearOfDay z) := by omega
  have hmo := monthOfDoyT_spec hL hdoy.1 hdoy.2
  simp only [civilFromDays, daysFromCivil, monthOfDoy, daysBeforeMonth]
  omega

/-- The fields produced by `civilFromDays` are in range. -/
theorem civilFromDays_bounds (z : ℤ) :
    1 ≤ (civilFromDays z).month ∧ (civilFromDays z).month ≤ 12 ∧
      1 ≤ (civilFromDays z).day ∧
      (civilFromDays z).day ≤ daysInMonth (civilFromDays z).year (civilFromDays z).month := by
  have hy := yearOfDay_spec z
  have hL := leapBit_nonneg (yearOfDay z)
  have hy1 : daysBeforeYear (yearOfDay z + 1)
      = daysBeforeYear (yearOfDay z) + 365 + leapBit (yearOfDay z) := by
    simp only [daysBeforeYear, daysToYear_succ]; ring
  have hdoy : 0 ≤ z - daysBeforeYear (yearOfDay z) ∧
      z - daysBeforeYear (yearOfDay z) < 365 + leapBit (yearOfDay z) := by omega
  have hmo := monthOfDoyT_spec hL hdoy.1 hdoy.2
  simp only [civilFromDays, monthOfDoy, daysBeforeMonth, daysInMonth]
  omega

/-! ## ECMAScript `Date` field accessors (host collaborators)

UTC accessors read/write the fields of the timestamp itself; the local
accessors are the same computations on `t + tz` (fixed-offset time zone
model), shifted back. -/

/-- ECMAScript `Day(t)`. -/
def dayNumber (t : ℤ) : ℤ := t / 86400000

/-- ECMAScript `TimeWithinDay(t)`. -/
def msOfDay (t : ℤ) : ℤ := t % 86400000

/-- ECMAScript `HourFromTime(t)`. -/
def hourFromTime (t : ℤ) : ℤ := (t / 3600000) % 24

/-- ECMAScript `MinFromTime(t)`. -/
def minFromTime (t : ℤ) : ℤ := (t / 60000) % 60

/-- ECMAScript `SecFromTime(t)`. -/
def secFromTime (t : ℤ) : ℤ := (t / 1000) % 60

/-- ECMAScript `msFromTime(t)`. -/
def msFromTime (t : ℤ) : ℤ := t % 1000

/-- ECMAScript `WeekDay(Day(t))`: 0 = Sunday (1970-01-01 was a Thursday). -/
def weekDay (t : ℤ) : ℤ := (dayNumber t + 4) % 7

/-- The calendar date holding `t` (UTC fields). -/
def ymdOfTime (t : ℤ) : Ymd := civilFromDays (dayNumber t)

/-- `getUTCFullYear`. -/
def getYearF (t : ℤ) : ℤ := (ymdOfTime t).year

/-- `getUTCMonth` (0-based, as in JavaScript). -/
def getMonthF (t : ℤ) : ℤ := (ymdOfTime t).month - 1

/-- `getUTCDate` (1-based day of month). -/
def getDateF (t : ℤ) : ℤ := (ymdOfTime t).day

/-- `setUTCMilliseconds(v)`: `MakeDate(Day(t), MakeTime(h, min, s, v))`. -/
def setMsF (v t : ℤ) : ℤ :=
  dayNumber t * 86400000 + hourFromTime t * 3600000 + minFromTime t * 60000
    + secFromTime t * 1000 + v

/-- `setUTCSeconds(s)` (milliseconds kept). -/
def setSecF (s t : ℤ) : ℤ :=
  dayNumber t * 86400000 + hourFromTime t * 3600000 + minFromTime t * 60000
    + s * 1000 + msFromTime t

/-- `setUTCSeconds(s, ms)`. -/
def setSec2F (s ms t : ℤ) : ℤ :=
  dayNumber t * 86400000 + hourFromTime t * 3600000 + minFromTime t * 60000
    + s * 1000 + ms

/-- `setUTCMinutes(min)` (seconds and milliseconds kept). -/
def setMinF (min t : ℤ) : ℤ :=
  dayNumber t * 86400000 + hourFromTime t * 3600000 + min * 60000
    + secFromTime t * 1000 + msFromTime t

/-- `setUTCMinutes(min, s, ms)`. -/
def setMin3F (min s ms t : ℤ) : ℤ :=
  dayNumber t * 86400000 + hourFromTime t * 3600000 + min * 60000 + s * 1000 + ms

/-- `setUTCHours(h)` (finer fields kept). -/
def setHourF (h t : ℤ) : ℤ :=
  dayNumber t * 86400000 + h * 3600000 + minFromTime t * 60000
    + secFromTime t * 1000 + msFromTime t

/-- `setUTCHours(h, min, s, ms)`. -/
def setHours4F (h min s ms t : ℤ) : ℤ :=
  dayNumber t * 86400000 + h * 3600000 + min * 60000 + s * 1000 + ms

/-- `setUTCDate(d)`: `MakeDate(MakeDay(year, month, d), TimeWithinDay(t))`. -/
def setDateF (d t : ℤ) : ℤ :=
  makeDay (getYearF t) (getMonthF t) d * 86400000 + msOfDay t

/-- `setUTCMonth(m0)` (`m0` 0-based; day of month kept, carrying). -/
def setMonthF (m0 t : ℤ) : ℤ :=
  makeDay (getYearF t) m0 (getDateF t) * 86400000 + msOfDay t

/-- `setUTCMonth(m0, d)`. -/
def setMonth2F (m0 d t : ℤ) : ℤ :=
  makeDay (getYearF t) m0 d * 86400000 + msOfDay t

/-- `setUTCFullYear(y)` (month and day kept, carrying). -/
def setYearF (y t : ℤ) : ℤ :=
  makeDay y (getMonthF t) (getDateF t) * 86400000 + msOfDay t

/-- Run a field computation `f` on the accessor set selected by `useUtc`:
on the UTC fields of `t` itself, or on the UTC fields of `t + tz` (= the
local fields of `t`), shifting the result back. -/
def onFields (useUtc : Bool) (tz : ℤ) (f : ℤ → ℤ) (t : ℤ) : ℤ :=
  if useUtc then f t else f (t + tz) - tz

/-! ## The repository's date helpers (src/utils/date.ts) -/

/-- `DateUnit` from src/utils/date.ts. -/
inductive DateUnit where
  | millisecond | second | minute | hour | day | week | month | year
deriving DecidableEq, Repr

/-- `DateHelperOptions` from src/utils/date.ts: both fields optional. -/
structure DateHelperOptions where
  utc : Option Bool := none
  weekStartsOn : Option ℤ := none
deriving DecidableEq, Repr

/-- `options?.utc === true` from the source. -/
def useUtcOf (o : Option DateHelperOptions) : Bool :=
  match o with
  | some opts => opts.utc.getD false
  | none => false

/-- `options?.weekStartsOn ?? 0` from the source. -/
def weekStartOf (o : Option DateHelperOptions) : ℤ :=
  match o with
  | some opts => opts.weekStartsOn.getD 0
  | none => 0

/-- Source constants `MILLISECOND_IN_*`. -/
def MILLISECOND_IN_SECOND : ℤ := 1000

def MILLISECOND_IN_MINUTE : ℤ := MILLISECOND_IN_SECOND * 60

def MILLISECOND_IN_HOUR : ℤ := MILLISECOND_IN_MINUTE * 60

def MILLISECOND_IN_DAY : ℤ := MILLISECOND_IN_HOUR * 24

def MILLISECOND_IN_WEEK : ℤ := MILLISECOND_IN_DAY * 7

/-- `shiftDate` from src/utils/date.ts: each case performs
`set<Field>(get<Field>() + value)` on the accessor set selected by
`options?.utc === true`. -/
def shiftDate (tz : ℤ) (date : ℤ) (value : ℤ) (unit : DateUnit)
    (options : Option DateHelperOptions) : ℤ :=
  let useUtc := useUtcOf options
  match unit with
  | .millisecond => onFields useUtc tz (fun u => setMsF (msFromTime u + value) u) date
  | .second => onFields useUtc tz (fun u => setSecF (secFromTime u + value) u) date
  | .minute => onFields useUtc tz (fun u => setMinF (minFromTime u + value) u) date
  | .hour => onFields useUtc tz (fun u => setHourF (hourFromTime u + value) u) date
  | .day => onFields useUtc tz (fun u => setDateF (getDateF u + value) u) date
  | .week => onFields useUtc tz (fun u => setDateF (getDateF u + value * 7) u) date
  | .month => onFields useUtc tz (fun u => setMonthF (getMonthF u + value) u) date
  | .year => onFields useUtc tz (fun u => setYearF (getYearF u + value) u) date

/-- `diffInMonths` from src/utils/date.ts (it uses the local accessors:
it calls `shiftDate` without options). -/
def diffInMonths (tz start endd : ℤ) : ℚ :=
  if start = endd then 0
  else
    let sign : ℤ := if start < endd then 1 else -1
    let months : ℤ := ((ymdOfTime (endd + tz)).year - (ymdOfTime (start + tz)).year) * 12
      + ((ymdOfTime (endd + tz)).month - (ymdOfTime (start + tz)).month)
    let anchor := shiftDate tz start months .month none
    let months := if (0 < sign ∧ endd < anchor) ∨ (sign < 0 ∧ anchor < endd)
      then months - sign else months
    let adjustedAnchor := shiftDate tz start months .month none
    let next := shiftDate tz adjustedAnchor sign .month none
    let interval : ℤ := next - adjustedAnchor
    if interval = 0 then (months : ℚ)
    else (months : ℚ) + ((endd - adjustedAnchor : ℤ) : ℚ) / (interval : ℚ) * (sign : ℚ)

/-- `modifyDate` from src/utils/date.ts (the public shift operation): it
passes no options to `shiftDate`.  The `date` argument defaults to `now()`
in the source; the clock is modelled in the stateful embedding below. -/
def modifyDate (tz : ℤ) (value : ℤ) (unit : DateUnit) (date : ℤ) : ℤ :=
  shiftDate tz date value unit none

/-- `dateDiff` from src/utils/date.ts. -/
def dateDiff (tz start endd : ℤ) (unit : DateUnit) : ℚ :=
  let diffMilliseconds : ℤ := endd - start
  match unit with
  | .millisecond => (diffMilliseconds : ℚ)
  | .second => (diffMilliseconds : ℚ) / (MILLISECOND_IN_SECOND : ℚ)
  | .minute => (diffMilliseconds : ℚ) / (MILLISECOND_IN_MINUTE : ℚ)
  | .hour => (diffMilliseconds : ℚ) / (MILLISECOND_IN_HOUR : ℚ)
  | .day => (diffMilliseconds : ℚ) / (MILLISECOND_IN_DAY : ℚ)
  | .week => (diffMilliseconds : ℚ) / (MILLISECOND_IN_WEEK : ℚ)
  | .month => diffInMonths tz start endd
  | .year => diffInMonths tz start endd / 12

/-- The `day` case of `startOf` (`setHours(0,0,0,0)` on the selected
accessor set); shared with the `week` case, which starts from it. -/
def startOfDayF (useUtc : Bool) (tz : ℤ) (date : ℤ) : ℤ :=
  onFields useUtc tz (setHours4F 0 0 0 0) date

/-- `startOf` from src/utils/date.ts. -/
def startOf (tz : ℤ) (date : ℤ) (unit : DateUnit)
    (options : Option DateHelperOptions) : ℤ :=
  let useUtc := useUtcOf options
  match unit with
  | .millisecond => date
  | .second => onFields useUtc tz (setMsF 0) date
  | .minute => onFields useUtc tz (setSec2F 0 0) date
  | .hour => onFields useUtc tz (setMin3F 0 0 0) date
  | .day => startOfDayF useUtc tz date
  | .week =>
    let startOfDay := startOfDayF useUtc tz date
    let day := if useUtc then weekDay startOfDay else weekDay (startOfDay + tz)
    let weekStart := weekStartOf options
    let offset := (day - weekStart + 7).tmod 7
    shiftDate tz startOfDay (-offset) .day options
  | .month => onFields useUtc tz (fun u => setHours4F 0 0 0 0 (setDateF 1 u)) date
  | .year => onFields useUtc tz (fun u => setHours4F 0 0 0 0 (setMonth2F 0 1 u)) date

/-- `endOf` from src/utils/date.ts. -/
def endOf (tz : ℤ) (date : ℤ) (unit : DateUnit)
    (options : Option DateHelperOptions) : ℤ :=
  if unit = .millisecond then date
  else
    let nextStart := shiftDate tz (startOf tz date unit options) 1 unit options
    shiftDate tz nextStart (-1) .millisecond options

/-- `isSame` from src/utils/date.ts. -/
def isSame (tz a b : ℤ) (unit : DateUnit)
    (options : Option DateHelperOptions) : Bool :=
  startOf tz a unit options == startOf tz b unit options

/-! ## Reduction of the operations to their UTC-field cores -/

/-- The field computation performed by one `shiftDate` case. -/
def shiftF (value : ℤ) (unit : DateUnit) (u : ℤ) : ℤ :=
  match unit with
  | .millisecond => setMsF (msFromTime u + value) u
  | .second => setSecF (secFromTime u + value) u
  | .minute => setMinF (minFromTime u + value) u
  | .hour => setHourF (hourFromTime u + value) u
  | .day => setDateF (getDateF u + value) u
  | .week => setDateF (getDateF u + value * 7) u
  | .month => setMonthF (getMonthF u + value) u
  | .year => setYearF (getYearF u + value) u

theorem shiftDate_eq (tz date value : ℤ) (unit : DateUnit)
    (opts : Option DateHelperOptions) :
    shiftDate tz date value unit opts
      = onFields (useUtcOf opts) tz (shiftF value unit) date := by
  cases unit <;> rfl

/-- The field computation performed by one `startOf` case. -/
def startOfF (unit : DateUnit) (ws : ℤ) (u : ℤ) : ℤ :=
  match unit with
  | .millisecond => u
  | .second => setMsF 0 u
  | .minute => setSec2F 0 0 u
  | .hour => setMin3F 0 0 0 u
  | .day => setHours4F 0 0 0 0 u
  | .week =>
    let sod := setHours4F 0 0 0 0 u
    let offset := (weekDay sod - ws + 7).tmod 7
    shiftF (-offset) .day sod
  | .month => setHours4F 0 0 0 0 (setDateF 1 u)
  | .year => setHours4F 0 0 0 0 (setMonth2F 0 1 u)

theorem startOf_eq (tz date : ℤ) (unit : DateUnit)
    (opts : Option DateHelperOptions) :
    startOf tz date unit opts
      = onFields (useUtcOf opts) tz (startOfF unit (weekStartOf opts)) date := by
  cases unit <;>
    (simp only [startOf, startOfF, startOfDayF, shiftDate_eq, onFields] <;>
      cases useUtcOf opts <;> simp <;> ring_nf)

theorem endOf_eq (tz date : ℤ) (unit : DateUnit) (opts : Option DateHelperOptions)
    (h : unit ≠ .millisecond) :
    endOf tz date unit opts
      = onFields (useUtcOf opts) tz
          (fun u => shiftF (-1) .millisecond
            (shiftF 1 unit (startOfF unit (weekStartOf opts) u))) date := by
  have hne : (unit = DateUnit.millisecond) = False := by
    simp [h]
  simp only [endOf, hne, if_false, shiftDate_eq, startOf_eq, onFields]
  cases useUtcOf opts <;> simp <;> ring_nf

/-! ## Arithmetic collapse of the field cores -/

theorem shiftF_ms (v u : ℤ) : shiftF v .millisecond u = u + v := by
  simp only [shiftF, setMsF, msFromTime, dayNumber, hourFromTime, minFromTime, secFromTime]
  omega

theorem shiftF_second (v u : ℤ) : shiftF v .second u = u + 1000 * v := by
  simp only [shiftF, setSecF, msFromTime, dayNumber, hourFromTime, minFromTime, secFromTime]
  omega

theorem shiftF_minute (v u : ℤ) : shiftF v .minute u = u + 60000 * v := by
  simp only [shiftF, setMinF, msFromTime, dayNumber, hourFromTime, minFromTime, secFromTime]
  omega

theorem shiftF_hour (v u : ℤ) : shiftF v .hour u = u + 3600000 * v := by
  simp only [shiftF, setHourF, msFromTime, dayNumber, hourFromTime, minFromTime, secFromTime]
  omega

/-- `setUTCDate(getUTCDate() + v)` adds exactly `v` civil days. -/
theorem setDateF_shift (v u : ℤ) : setDateF (getDateF u + v) u = u + 86400000 * v := by
  have hb := civilFromDays_bounds (dayNumber u)
  have hr := daysFromCivil_civilFromDays (dayNumber u)
  simp only [setDateF, getDateF, getYearF, getMonthF, ymdOfTime, makeDay] at *
  have h12 : ((civilFromDays (dayNumber u)).month - 1) / 12 = 0 := by omega
  have h12m : ((civilFromDays (dayNumber u)).month - 1) % 12
      = (civilFromDays (dayNumber u)).month - 1 := by omega
  rw [h12, h12m]
  have : (civilFromDays (dayNumber u)).month - 1 + 1 = (civilFromDays (dayNumber u)).month := by
    ring
  rw [this]
  simp only [daysFromCivil, add_zero] at *
  simp only [dayNumber, msOfDay] at *
  omega

theorem shiftF_day (v u : ℤ) : shiftF v .day u = u + 86400000 * v := by
  simp only [shiftF]; rw [setDateF_shift]

theorem shiftF_week (v u : ℤ) : shiftF v .week u = u + 604800000 * v := by
  simp only [shiftF]; rw [setDateF_shift]; ring

theorem startOfF_ms (ws u : ℤ) : startOfF .millisecond ws u = u := rfl

theorem startOfF_second (ws u : ℤ) : startOfF .second ws u = u - u % 1000 := by
  simp only [startOfF, setMsF, msFromTime, dayNumber, hourFromTime, minFromTime, secFromTime]
  omega

theorem startOfF_minute (ws u : ℤ) : startOfF .minute ws u = u - u % 60000 := by
  simp only [startOfF, setSec2F, dayNumber, hourFromTime, minFromTime]
  omega

theorem startOfF_hour (ws u : ℤ) : startOfF .hour ws u = u - u % 3600000 := by
  simp only [startOfF, setMin3F, dayNumber, hourFromTime]
  omega

theorem startOfF_day (ws u : ℤ) : startOfF .day ws u = u - u % 86400000 := by
  simp only [startOfF, setHours4F, dayNumber]
  omega

theorem startOfF_week (ws u : ℤ) (hws : 0 ≤ ws ∧ ws ≤ 6) :
    startOfF .week ws u
      = u - u % 86400000 - 86400000 * ((u / 86400000 + 4 - ws) % 7) := by
  have hsod : setHours4F 0 0 0 0 u = u - u % 86400000 := by
    simp only [setHours4F, dayNumber]; omega
  have hwd : weekDay (u - u % 86400000) = (u / 86400000 + 4) % 7 := by
    simp only [weekDay, dayNumber]; omega
  have harg : 0 ≤ (u / 86400000 + 4) % 7 - ws + 7 := by omega
  simp only [startOfF, hsod, hwd, shiftF_day]
  rw [Int.tmod_eq_emod harg (by omega)]
  omega

theorem startOfF_month (ws u : ℤ) :
    startOfF .month ws u
      = 86400000 * (daysBeforeYear (ymdOfTime u).year
          + daysBeforeMonth (ymdOfTime u).year (ymdOfTime u).month) := by
  have hb := civilFromDays_bounds (dayNumber u)
  simp only [startOfF, setDateF, getYearF, getMonthF, ymdOfTime, makeDay] at *
  have h12 : ((civilFromDays (dayNumber u)).month - 1) / 12 = 0 := by omega
  have h12m : ((civilFromDays (dayNumber u)).month - 1) % 12
      = (civilFromDays (dayNumber u)).month - 1 := by omega
  rw [h12, h12m]
  have hm1 : (civilFromDays (dayNumber u)).month - 1 + 1
      = (civilFromDays (dayNumber u)).month := by ring
  rw [hm1]
  simp only [setHours4F, daysFromCivil, dayNumber, msOfDay, add_zero]
  omega

theorem startOfF_year (ws u : ℤ) :
    startOfF .year ws u = 86400000 * daysBeforeYear (ymdOfTime u).year := by
  simp only [startOfF, setMonth2F, getYearF, ymdOfTime, makeDay]
  have h0 : (0 : ℤ) / 12 = 0 := by decide
  have h0m : (0 : ℤ) % 12 = 0 := by decide
  rw [h0, h0m]
  have hbm : ∀ y : ℤ, daysBeforeMonth y (0 + 1) = 0 := by
    intro y; simp [daysBeforeMonth, monthTable]
  simp only [daysFromCivil, hbm, setHours4F, dayNumber, msOfDay, add_zero]
  omega

/-! ## Support lemmas on the field cores -/

theorem onFields_comp (b : Bool) (tz : ℤ) (f g : ℤ → ℤ) (t : ℤ) :
    onFields b tz f (onFields b tz g t) = onFields b tz (fun x => f (g x)) t := by
  cases b <;> simp only [onFields, Bool.false_eq_true, if_false, if_true]
  ring_nf

theorem daysBeforeMonth_one (y : ℤ) : daysBeforeMonth y 1 = 0 := by
  simp [daysBeforeMonth, monthTable]

theorem daysBeforeYear_succ (y : ℤ) :
    daysBeforeYear (y + 1) = daysBeforeYear y + 365 + leapBit y := by
  simp only [daysBeforeYear, daysToYear_succ]
  ring

/-- Month lengths lie between 28 and 31 days. -/
theorem daysInMonth_bounds {y m : ℤ} (hm : 1 ≤ m ∧ m ≤ 12) :
    28 ≤ daysInMonth y m ∧ daysInMonth y m ≤ 31 := by
  have hL := leapBit_nonneg y
  simp only [daysInMonth, daysBeforeMonth, monthTable]
  split_ifs <;> omega

/-- `monthTable L 13` is the length of the year. -/
theorem monthTable_year (y : ℤ) : daysBeforeMonth y 13 = 365 + leapBit y := by
  have hL := leapBit_nonneg y
  simp only [daysBeforeMonth, monthTable]
  split_ifs <;> omega

/-- The month following December has the length of January. -/
theorem daysInMonth_thirteen (y : ℤ) : daysInMonth y 13 = 31 := by
  have hL := leapBit_nonneg y
  simp only [daysInMonth, daysBeforeMonth, monthTable]
  split_ifs <;> omega

/-- The calendar date of a timestamp built from a normalised date and a
time of day. -/
theorem ymdOfTime_mk {y m d r : ℤ} (hm : 1 ≤ m ∧ m ≤ 12)
    (hd : 1 ≤ d ∧ d ≤ daysInMonth y m) (hr : 0 ≤ r ∧ r < 86400000) :
    ymdOfTime (daysFromCivil y m d * 86400000 + r) = ⟨y, m, d⟩ := by
  have h := civilFromDays_daysFromCivil (y := y) (k := d - 1) hm ⟨by omega, by omega⟩
  have hd1 : d - 1 + 1 = d := by ring
  rw [hd1] at h
  simp only [ymdOfTime, dayNumber]
  have hq : (daysFromCivil y m d * 86400000 + r) / 86400000 = daysFromCivil y m d := by
    omega
  rw [hq]
  exact h

/-- Bracketing: the day number lies between its month's start and the next
month's start. -/
theorem dayNumber_month_bracket (z : ℤ) :
    daysBeforeYear (civilFromDays z).year
        + daysBeforeMonth (civilFromDays z).year (civilFromDays z).month ≤ z ∧
      z < daysBeforeYear (civilFromDays z).year
        + daysBeforeMonth (civilFromDays z).year ((civilFromDays z).month + 1) := by
  have hb := civilFromDays_bounds z
  have hr := daysFromCivil_civilFromDays z
  simp only [daysFromCivil, daysInMonth] at *
  omega

/-- A day number within year `y` has `yearOfDay` equal to `y`. -/
theorem yearOfDay_within {y k : ℤ} (hk : 0 ≤ k ∧ k < daysInYear y) :
    yearOfDay (daysBeforeYear y + k) = y := by
  apply yearOfDay_eq
  · omega
  · have := daysBeforeYear_succ y
    simp only [daysInYear] at hk
    omega

/-! ## The specification's wording of the month-difference algorithm -/

/-- The field-walking month difference exactly as the specification words
it (spec §4.1 `diff`, steps 1–6): sign from the comparison, integer month
count from the year/month fields, one overshoot correction that decrements
`m` by `sign` and recomputes the anchor, then the fractional position
within the boundary month.  Written from the spec's words, to be compared
with the source's `diffInMonths`. -/
def diffInMonthsSpec (tz start endd : ℤ) : ℚ :=
  if start = endd then 0
  else
    let sign : ℤ := if start < endd then 1 else -1
    let m0 : ℤ := ((ymdOfTime (endd + tz)).year - (ymdOfTime (start + tz)).year) * 12
      + ((ymdOfTime (endd + tz)).month - (ymdOfTime (start + tz)).month)
    let anchor0 := shiftDate tz start m0 .month none
    let m : ℤ :=
      if (0 < sign ∧ endd < anchor0) ∨ (sign < 0 ∧ anchor0 < endd)
      then m0 - sign else m0
    let anchor : ℤ :=
      if (0 < sign ∧ endd < anchor0) ∨ (sign < 0 ∧ anchor0 < endd)
      then shiftDate tz start (m0 - sign) .month none else anchor0
    let next := shiftDate tz anchor sign .month none
    let intervalMs : ℤ := next - anchor
    if intervalMs = 0 then (m : ℚ)
    else (m : ℚ) + ((endd - anchor : ℤ) : ℚ) / (intervalMs : ℚ) * (sign : ℚ)

/-! ## Runtime unit dispatch (TypeScript types are erased at run time:
the `unit` argument is a string, and the `switch` statements fall through
to `assertUnsupportedUnit`, which throws `Error('Unsupported DateUnit')`,
for any string outside the eight named members). -/

/-- The eight member names of the closed `DateUnit` enumeration. -/
def dateUnitNames : List String :=
  ["millisecond", "second", "minute", "hour", "day", "week", "month", "year"]

/-- Recognise a runtime unit string as a `DateUnit` member. -/
def parseDateUnit (s : String) : Option DateUnit :=
  if s = "millisecond" then some .millisecond
  else if s = "second" then some .second
  else if s = "minute" then some .minute
  else if s = "hour" then some .hour
  else if s = "day" then some .day
  else if s = "week" then some .week
  else if s = "month" then some .month
  else if s = "year" then some .year
  else none

/-- Runtime `shiftDate`: the switch's eight cases, with
`assertUnsupportedUnit`'s throw as the default branch. -/
def shiftDateRT (tz date value : ℤ) (unit : String)
    (options : Option DateHelperOptions) : Except String ℤ :=
  match parseDateUnit unit with
  | some u => .ok (shiftDate tz date value u options)
  | none => .error "Unsupported DateUnit"

/-- Runtime `dateDiff`. -/
def dateDiffRT (tz start endd : ℤ) (unit : String) : Except String ℚ :=
  match parseDateUnit unit with
  | some u => .ok (dateDiff tz start endd u)
  | none => .error "Unsupported DateUnit"

/-- Runtime `startOf`. -/
def startOfRT (tz date : ℤ) (unit : String)
    (options : Option DateHelperOptions) : Except String ℤ :=
  match parseDateUnit unit with
  | some u => .ok (startOf tz date u options)
  | none => .error "Unsupported DateUnit"

/-- Runtime `endOf`. -/
def endOfRT (tz date : ℤ) (unit : String)
    (options : Option DateHelperOptions) : Except String ℤ :=
  match parseDateUnit unit with
  | some u => .ok (endOf tz date u options)
  | none => .error "Unsupported DateUnit"

theorem parseDateUnit_isSome_iff (s : String) :
    (parseDateUnit s).isSome ↔ s ∈ dateUnitNames := by
  simp only [parseDateUnit, dateUnitNames, List.mem_cons, List.not_mem_nil, or_false]
  split_ifs <;> simp_all

/-! ## Claim theorems -/

/-- C1: for every pair of dates, `diff(start, end, month)` follows the
spec's field-walking algorithm (sign, integer month count from the
year/month fields, one overshoot correction, fractional position within
the boundary month, degenerate guard), and `diff(start, end, year)` equals
`diff(start, end, month) / 12`. -/
theorem dateDiff_month_follows_spec_algorithm (tz start endd : ℤ) :
    dateDiff tz start endd .month = diffInMonthsSpec tz start endd ∧
    dateDiff tz start endd .year = diffInMonthsSpec tz start endd / 12 := by
  have h : diffInMonths tz start endd = diffInMonthsSpec tz start endd := by
    simp only [diffInMonths, diffInMonthsSpec]
    split_ifs <;> rfl
  exact ⟨h, by simp only [dateDiff, h]⟩

/-- C2, counterexample: the public shift operation (`modifyDate`) cannot
perform the field arithmetic on the UTC accessor set — it accepts no
options argument and always passes none — so on a host with a +01:00
offset it disagrees with the UTC-field shift at 2023-01-31T23:30Z shifted
by one month. -/
theorem public_shift_has_no_utc_mode :
    modifyDate 3600000 1 .month (19388 * 86400000 + 84600000)
      ≠ shiftDate 3600000 (19388 * 86400000 + 84600000) 1 .month
          (some { utc := some true }) := by decide

/-- C2 as amended: the public shift operation `modifyDate` accepts no
options argument and always performs the field arithmetic on the local
accessor set (it calls `shiftDate` without options); the internal
`shiftDate` accepts the options and performs the arithmetic on the UTC
accessor set exactly when `options?.utc === true`, and on the local set
otherwise. -/
theorem modifyDate_always_local_shiftDate_selects (tz date value : ℤ)
    (unit : DateUnit) (opts : Option DateHelperOptions) :
    modifyDate tz value unit date = shiftDate tz date value unit none ∧
    modifyDate tz value unit date = shiftF value unit (date + tz) - tz ∧
    shiftDate tz date value unit opts
      = (if useUtcOf opts = true then shiftF value unit date
         else shiftF value unit (date + tz) - tz) := by
  refine ⟨rfl, ?_, ?_⟩
  · simp only [modifyDate, shiftDate_eq, useUtcOf, onFields, Bool.false_eq_true, if_false]
  · simp only [shiftDate_eq, onFields]

/-- C8: shifting 2023-01-31 by one month yields 2023-03-03 — the host
calendar-field carry result (February 2023 has 28 days) — on the local
accessor set for every fixed offset, and on the UTC accessor set; the
generic `set month = month + value` path produces it, with no special case
for the rollover. -/
theorem shift_month_overflow_parity :
    (∀ tz : ℤ, modifyDate tz 1 .month (19388 * 86400000 - tz)
      = 19419 * 86400000 - tz) ∧
    shiftDate 0 (19388 * 86400000) 1 .month (some { utc := some true })
      = 19419 * 86400000 := by
  have hcore : shiftF 1 .month (19388 * 86400000) = 19419 * 86400000 := by decide
  constructor
  · intro tz
    simp only [modifyDate, shiftDate_eq, useUtcOf, onFields, Bool.false_eq_true, if_false]
    have harg : 19388 * 86400000 - tz + tz = 19388 * 86400000 := by ring
    rw [harg, hcore]
  · simp only [shiftDate_eq, useUtcOf, Option.getD_some, onFields, if_true]
    exact hcore

/-- C9: for every runtime unit string inside the closed enumeration,
`shift`, `diff`, `startOf` and `endOf` fully succeed and return the value
of the corresponding typed operation; for every string outside it they
fail immediately with the `Unsupported DateUnit` defect before producing
any output. -/
theorem unit_outside_enumeration_fails (tz date value a b : ℤ) (s : String)
    (opts : Option DateHelperOptions) :
    ((parseDateUnit s).isSome ↔ s ∈ dateUnitNames) ∧
    (∀ u, parseDateUnit s = some u →
      shiftDateRT tz date value s opts = .ok (shiftDate tz date value u opts) ∧
      dateDiffRT tz a b s = .ok (dateDiff tz a b u) ∧
      startOfRT tz date s opts = .ok (startOf tz date u opts) ∧
      endOfRT tz date s opts = .ok (endOf tz date u opts)) ∧
    (s ∉ dateUnitNames →
      shiftDateRT tz date value s opts = .error "Unsupported DateUnit" ∧
      dateDiffRT tz a b s = .error "Unsupported DateUnit" ∧
      startOfRT tz date s opts = .error "Unsupported DateUnit" ∧
      endOfRT tz date s opts = .error "Unsupported DateUnit") := by
  refine ⟨parseDateUnit_isSome_iff s, ?_, ?_⟩
  · intro u hu
    simp only [shiftDateRT, dateDiffRT, startOfRT, endOfRT, hu]
    exact ⟨trivial, trivial, trivial, trivial⟩
  · intro hs
    have hnone : parseDateUnit s = none := by
      cases h : parseDateUnit s with
      | none => rfl
      | some u =>
        exact absurd ((parseDateUnit_isSome_iff s).mp (by simp [h])) hs
    simp only [shiftDateRT, dateDiffRT, startOfRT, endOfRT, hnone]
    exact ⟨trivial, trivial, trivial, trivial⟩

/-- Witness for the unit-dispatch theorem at a member ("month") and a
non-member ("fortnight") of the enumeration. -/
theorem unit_outside_enumeration_fails_witness :
    shiftDateRT 0 0 1 "month" none = .ok (shiftDate 0 0 1 .month none) ∧
    shiftDateRT 0 0 1 "fortnight" none = .error "Unsupported DateUnit" :=
  ⟨((unit_outside_enumeration_fails 0 0 1 0 0 "month" none).2.1 .month
      (by decide)).1,
    ((unit_outside_enumeration_fails 0 0 1 0 0 "fortnight" none).2.2
      (by decide)).1⟩

theorem daysFromCivil_one (y m : ℤ) :
    daysFromCivil y m 1 = daysBeforeYear y + daysBeforeMonth y m := by
  simp only [daysFromCivil]; ring

theorem onFields_congr {f g : ℤ → ℤ} (b : Bool) (tz t : ℤ) (h : ∀ x, f x = g x) :
    onFields b tz f t = onFields b tz g t := by
  cases b <;> simp only [onFields, Bool.false_eq_true, if_false, if_true, h]

/-- The field view of a month start instant is the first of the month. -/
theorem ymdOfTime_monthStart (y m : ℤ) (hm : 1 ≤ m ∧ m ≤ 12) :
    ymdOfTime (86400000 * (daysBeforeYear y + daysBeforeMonth y m)) = ⟨y, m, 1⟩ := by
  have hdim := daysInMonth_bounds (y := y) hm
  have he : 86400000 * (daysBeforeYear y + daysBeforeMonth y m)
      = daysFromCivil y m 1 * 86400000 + 0 := by
    rw [daysFromCivil_one]; ring
  rw [he]
  exact ymdOfTime_mk hm ⟨le_refl 1, by omega⟩ ⟨le_refl 0, by omega⟩

/-- Idempotence of the `startOf` field core, per unit. -/
theorem startOfF_idem (u : DateUnit) (ws x : ℤ) (hws : 0 ≤ ws ∧ ws ≤ 6) :
    startOfF u ws (startOfF u ws x) = startOfF u ws x := by
  cases u
  case millisecond => rfl
  case second => rw [startOfF_second, startOfF_second]; omega
  case minute => rw [startOfF_minute, startOfF_minute]; omega
  case hour => rw [startOfF_hour, startOfF_hour]; omega
  case day => rw [startOfF_day, startOfF_day]; omega
  case week =>
    rw [startOfF_week _ _ hws, startOfF_week _ _ hws]
    omega
  case month =>
    rw [startOfF_month, startOfF_month]
    have hb := civilFromDays_bounds (dayNumber x)
    have hmk := ymdOfTime_monthStart (ymdOfTime x).year (ymdOfTime x).month
      (by simp only [ymdOfTime]; exact ⟨hb.1, hb.2.1⟩)
    rw [hmk]
  case year =>
    rw [startOfF_year, startOfF_year]
    have hdim := daysInMonth_bounds (y := (ymdOfTime x).year) ⟨le_refl 1, by omega⟩
    have he : 86400000 * daysBeforeYear (ymdOfTime x).year
        = daysFromCivil (ymdOfTime x).year 1 1 * 86400000 + 0 := by
      rw [daysFromCivil_one, daysBeforeMonth_one]; ring
    rw [he, ymdOfTime_mk ⟨le_refl 1, by omega⟩ ⟨le_refl 1, by omega⟩
      ⟨le_refl 0, by omega⟩]
    simpa using he

/-- C6: idempotence of `startOf`: for every instant, every unit of the
closed enumeration, every options value with a week start in 0..6, and
every fixed local offset, `startOf(startOf(i, u), u) == startOf(i, u)`. -/
theorem startOf_idempotent (tz t : ℤ) (u : DateUnit)
    (opts : Option DateHelperOptions)
    (hws : 0 ≤ weekStartOf opts ∧ weekStartOf opts ≤ 6) :
    startOf tz (startOf tz t u opts) u opts = startOf tz t u opts := by
  rw [startOf_eq, startOf_eq, onFields_comp]
  exact onFields_congr _ _ _ (fun x => startOfF_idem u (weekStartOf opts) x hws)

/-- Witness for idempotence: Monday-start week bucket at a concrete
instant. -/
theorem startOf_idempotent_witness :
    startOf 0 (startOf 0 1687132800005 .week
        (some { utc := none, weekStartsOn := some 1 })) .week
        (some { utc := none, weekStartsOn := some 1 })
      = startOf 0 1687132800005 .week (some { utc := none, weekStartsOn := some 1 }) :=
  startOf_idempotent 0 1687132800005 .week
    (some { utc := none, weekStartsOn := some 1 }) (by decide)

/-- An instant that starts a calendar day whose weekday index is `w`. -/
def isWeekdayStart (w x : ℤ) : Prop := x % 86400000 = 0 ∧ weekDay x = w

/-- The instant as read by the selected field accessor set (UTC fields of
`x` itself, or of `x + tz`). -/
def fieldView (useUtc : Bool) (tz x : ℤ) : ℤ := if useUtc then x else x + tz

/-- The `startOf .week` field core lands on the closest day start, at or
before the instant, whose weekday is the configured week start. -/
theorem startOfF_week_props (ws x : ℤ) (hws : 0 ≤ ws ∧ ws ≤ 6) :
    (startOfF .week ws x % 86400000 = 0 ∧ weekDay (startOfF .week ws x) = ws) ∧
    startOfF .week ws x ≤ x ∧
    ∀ q, q % 86400000 = 0 → weekDay q = ws → q ≤ x → q ≤ startOfF .week ws x := by
  rw [startOfF_week _ _ hws]
  simp only [weekDay, dayNumber]
  refine ⟨⟨by omega, by omega⟩, by omega, ?_⟩
  intro q h1 h2 h3
  omega

/-- C4: `startOf(i, week, options)` computes `startOf(i, day)`, reads its
weekday, shifts back by `(weekday − weekStartWeekday + 7) mod 7` days, and
the result is the most recent occurrence of the configured week-start
weekday at or before `i`, for every week start in 0..6 (in the selected
field view, for every fixed offset). -/
theorem startOf_week_most_recent (tz t : ℤ) (opts : Option DateHelperOptions)
    (hws : 0 ≤ weekStartOf opts ∧ weekStartOf opts ≤ 6) :
    startOf tz t .week opts
        = shiftDate tz (startOf tz t .day opts)
            (-((weekDay (fieldView (useUtcOf opts) tz (startOf tz t .day opts))
                - weekStartOf opts + 7).tmod 7)) .day opts ∧
    isWeekdayStart (weekStartOf opts)
        (fieldView (useUtcOf opts) tz (startOf tz t .week opts)) ∧
    startOf tz t .week opts ≤ t ∧
    ∀ x, isWeekdayStart (weekStartOf opts) (fieldView (useUtcOf opts) tz x) →
      x ≤ t → x ≤ startOf tz t .week opts := by
  have hcore := fun v => startOfF_week_props (weekStartOf opts) v hws
  constructor
  · cases h : useUtcOf opts <;>
      simp only [startOf, startOfDayF, fieldView, h, Bool.false_eq_true, if_false, if_true]
  · rw [startOf_eq]
    cases h : useUtcOf opts
    · simp only [onFields, Bool.false_eq_true, if_false, fieldView, isWeekdayStart]
      have h1 := hcore (t + tz)
      refine ⟨by simpa using h1.1, by have := h1.2.1; omega, ?_⟩
      intro x hx hxt
      have := h1.2.2 (x + tz) hx.1 hx.2 (by omega)
      omega
    · simp only [onFields, if_true, fieldView, isWeekdayStart]
      have h1 := hcore t
      exact ⟨h1.1, h1.2.1, fun x hx hxt => h1.2.2 x hx.1 hx.2 hxt⟩

/-- Witness: the Monday-start week containing 2023-06-18T00:00:00.005Z
begins on 2023-06-12, at or before the instant. -/
theorem startOf_week_most_recent_witness :
    isWeekdayStart 1 (fieldView false 0
        (startOf 0 1687132800005 .week (some { utc := none, weekStartsOn := some 1 }))) ∧
    startOf 0 1687132800005 .week (some { utc := none, weekStartsOn := some 1 })
      ≤ 1687132800005 :=
  ⟨(startOf_week_most_recent 0 1687132800005
      (some { utc := none, weekStartsOn := some 1 }) (by decide)).2.1,
    (startOf_week_most_recent 0 1687132800005
      (some { utc := none, weekStartsOn := some 1 }) (by decide)).2.2.1⟩

/-! ## Boundary lemmas for month and year shifts -/

theorem civilFromDays_year (z : ℤ) : (civilFromDays z).year = yearOfDay z := rfl

/-- `MakeDay` for a 0-based month index in 0..11 does not carry the year. -/
theorem makeDay_small {y m0 d : ℤ} (h : 0 ≤ m0 ∧ m0 ≤ 11) :
    makeDay y m0 d = daysFromCivil y (m0 + 1) d := by
  simp only [makeDay]
  have h1 : m0 / 12 = 0 := by omega
  have h2 : m0 % 12 = m0 := by omega
  rw [h1, h2, add_zero]

/-- `MakeDay` at month index 12: January of the next year. -/
theorem makeDay_twelve (y d : ℤ) : makeDay y 12 d = daysFromCivil (y + 1) 1 d := by
  simp only [makeDay]
  norm_num

theorem daysInMonth_one (y : ℤ) : daysInMonth y 1 = 31 := by
  have hL := leapBit_nonneg y
  simp only [daysInMonth, daysBeforeMonth, monthTable]
  split_ifs <;> omega

theorem daysBeforeMonth_twelve (y : ℤ) : daysBeforeMonth y 12 = 334 + leapBit y := by
  have hL := leapBit_nonneg y
  simp only [daysBeforeMonth, monthTable]
  split_ifs <;> omega

/-- Shifting the first of a month by one month lands on the first of the
following month (day 1 never carries); `m + 1 = 13` reads as January of
the next year through `monthTable`. -/
theorem shiftF_month_at_start {y m : ℤ} (hm : 1 ≤ m ∧ m ≤ 12) :
    shiftF 1 .month (86400000 * (daysBeforeYear y + daysBeforeMonth y m))
      = 86400000 * (daysBeforeYear y + daysBeforeMonth y (m + 1)) := by
  have hS := ymdOfTime_monthStart y m hm
  have hmod : msOfDay (86400000 * (daysBeforeYear y + daysBeforeMonth y m)) = 0 := by
    simp only [msOfDay]; omega
  simp only [shiftF, setMonthF, getMonthF, getDateF, getYearF, hS, hmod]
  have hm1 : m - 1 + 1 = m := by ring
  rw [hm1]
  by_cases h12 : m ≤ 11
  · rw [makeDay_small ⟨by omega, h12⟩, daysFromCivil_one]
    ring
  · have hm12 : m = 12 := by omega
    subst hm12
    rw [makeDay_twelve, daysFromCivil_one, daysBeforeMonth_one]
    have e13 : (12 : ℤ) + 1 = 13 := by norm_num
    rw [e13, monthTable_year, daysBeforeYear_succ]
    ring

/-- When the day of month also exists in the following month, the one-month
shift lands in the following month, whose start it determines. -/
theorem startOfF_month_shift_no_overflow {ws x : ℤ}
    (hc : (ymdOfTime x).day
      ≤ daysInMonth (ymdOfTime x).year ((ymdOfTime x).month + 1)) :
    startOfF .month ws (shiftF 1 .month x)
      = 86400000 * (daysBeforeYear (ymdOfTime x).year
          + daysBeforeMonth (ymdOfTime x).year ((ymdOfTime x).month + 1)) := by
  have hb := civilFromDays_bounds (dayNumber x)
  have hr : 0 ≤ msOfDay x ∧ msOfDay x < 86400000 := by
    simp only [msOfDay]; omega
  have hm1 : (ymdOfTime x).month - 1 + 1 = (ymdOfTime x).month := by ring
  have hx : shiftF 1 .month x
      = makeDay (ymdOfTime x).year (ymdOfTime x).month (ymdOfTime x).day
          * 86400000 + msOfDay x := by
    simp only [shiftF, setMonthF, getMonthF, getDateF, getYearF, hm1]
  rw [hx]
  by_cases h12 : (ymdOfTime x).month ≤ 11
  · rw [makeDay_small ⟨by simp only [ymdOfTime] at *; omega, h12⟩]
    have hmk := ymdOfTime_mk (y := (ymdOfTime x).year) (m := (ymdOfTime x).month + 1)
      (d := (ymdOfTime x).day) (r := msOfDay x)
      ⟨by simp only [ymdOfTime] at *; omega, by omega⟩
      ⟨by simp only [ymdOfTime] at *; omega, hc⟩ hr
    rw [startOfF_month, hmk]
  · have hm12 : (ymdOfTime x).month = 12 := by simp only [ymdOfTime] at *; omega
    rw [hm12, makeDay_twelve]
    have h31 : daysInMonth (ymdOfTime x).year 13 = 31 := daysInMonth_thirteen _
    have h31b : daysInMonth ((ymdOfTime x).year + 1) 1 = 31 := daysInMonth_one _
    have e13a : (12 : ℤ) + 1 = 13 := by norm_num
    have hd31 : (ymdOfTime x).day ≤ 31 := by rw [hm12, e13a, h31] at hc; exact hc
    have hmk := ymdOfTime_mk (y := (ymdOfTime x).year + 1) (m := 1)
      (d := (ymdOfTime x).day) (r := msOfDay x)
      ⟨le_refl 1, by norm_num⟩
      ⟨by simp only [ymdOfTime] at *; omega, by omega⟩ hr
    rw [startOfF_month, hmk]
    have e1 : daysBeforeMonth ((ymdOfTime x).year + 1) 1 = 0 := daysBeforeMonth_one _
    have e2 := daysBeforeYear_succ (ymdOfTime x).year
    have e3 := monthTable_year (ymdOfTime x).year
    rw [e13a]
    simp only [daysBeforeMonth] at *
    omega

/-- Shifting the first of a year by one year lands on the first of the
next year. -/
theorem shiftF_year_at_start (y : ℤ) :
    shiftF 1 .year (86400000 * daysBeforeYear y)
      = 86400000 * daysBeforeYear (y + 1) := by
  have hdim := daysInMonth_one y
  have he : 86400000 * daysBeforeYear y = daysFromCivil y 1 1 * 86400000 + 0 := by
    rw [daysFromCivil_one, daysBeforeMonth_one]; ring
  have hS : ymdOfTime (86400000 * daysBeforeYear y) = ⟨y, 1, 1⟩ := by
    rw [he]
    exact ymdOfTime_mk ⟨le_refl 1, by omega⟩ ⟨le_refl 1, by omega⟩ ⟨le_refl 0, by omega⟩
  have hmod : msOfDay (86400000 * daysBeforeYear y) = 0 := by
    simp only [msOfDay]; omega
  simp only [shiftF, setYearF, getMonthF, getDateF, getYearF, hS, hmod]
  norm_num
  rw [makeDay_small ⟨le_refl 0, by omega⟩]
  have e : ((0 : ℤ) + 1) = 1 := by norm_num
  rw [e, daysFromCivil_one, daysBeforeMonth_one]
  ring

/-- `civilFromDays_bounds`, phrased through `ymdOfTime`. -/
theorem ymdOfTime_bounds (x : ℤ) :
    1 ≤ (ymdOfTime x).month ∧ (ymdOfTime x).month ≤ 12 ∧
      1 ≤ (ymdOfTime x).day ∧
      (ymdOfTime x).day ≤ daysInMonth (ymdOfTime x).year (ymdOfTime x).month :=
  civilFromDays_bounds (dayNumber x)

/-- A one-year shift always stays within the following calendar year, so
the year start of the result is the start of the next year. -/
theorem startOfF_year_shift (ws x : ℤ) :
    startOfF .year ws (shiftF 1 .year x)
      = 86400000 * daysBeforeYear ((ymdOfTime x).year + 1) := by
  have hb := ymdOfTime_bounds x
  have hdim := daysInMonth_bounds (y := (ymdOfTime x).year) (m := (ymdOfTime x).month)
    ⟨hb.1, hb.2.1⟩
  have hr : 0 ≤ msOfDay x ∧ msOfDay x < 86400000 := by
    simp only [msOfDay]; omega
  have hx : shiftF 1 .year x
      = makeDay ((ymdOfTime x).year + 1) ((ymdOfTime x).month - 1) (ymdOfTime x).day
          * 86400000 + msOfDay x := by
    simp only [shiftF, setYearF, getMonthF, getDateF, getYearF]
  have hsm : makeDay ((ymdOfTime x).year + 1) ((ymdOfTime x).month - 1) (ymdOfTime x).day
      = daysFromCivil ((ymdOfTime x).year + 1) (ymdOfTime x).month (ymdOfTime x).day := by
    rw [makeDay_small ⟨by omega, by omega⟩]
    have hm1 : (ymdOfTime x).month - 1 + 1 = (ymdOfTime x).month := by ring
    rw [hm1]
  rw [hx, hsm, startOfF_year]
  have hL1 := leapBit_nonneg ((ymdOfTime x).year + 1)
  have hbm12 := daysBeforeMonth_twelve ((ymdOfTime x).year + 1)
  have hbm : daysBeforeMonth ((ymdOfTime x).year + 1) (ymdOfTime x).month
      ≤ daysBeforeMonth ((ymdOfTime x).year + 1) 12 :=
    monthTable_mono (leapBit_nonneg _).1 (by omega) (by omega) (by norm_num)
  have hbm1 := daysBeforeMonth_one ((ymdOfTime x).year + 1)
  have hbm0 : daysBeforeMonth ((ymdOfTime x).year + 1) 1
      ≤ daysBeforeMonth ((ymdOfTime x).year + 1) (ymdOfTime x).month :=
    monthTable_mono (leapBit_nonneg _).1 (by omega) (le_refl 1) (by omega)
  have hyr : yearOfDay (daysFromCivil ((ymdOfTime x).year + 1) (ymdOfTime x).month
      (ymdOfTime x).day) = (ymdOfTime x).year + 1 := by
    have he : daysFromCivil ((ymdOfTime x).year + 1) (ymdOfTime x).month (ymdOfTime x).day
        = daysBeforeYear ((ymdOfTime x).year + 1)
          + (daysBeforeMonth ((ymdOfTime x).year + 1) (ymdOfTime x).month
            + (ymdOfTime x).day - 1) := by
      simp only [daysFromCivil]; ring
    rw [he]
    apply yearOfDay_within
    simp only [daysInYear]
    omega
  have hgy : (ymdOfTime (daysFromCivil ((ymdOfTime x).year + 1) (ymdOfTime x).month
      (ymdOfTime x).day * 86400000 + msOfDay x)).year
      = yearOfDay (daysFromCivil ((ymdOfTime x).year + 1) (ymdOfTime x).month
          (ymdOfTime x).day) := by
    have hq : dayNumber (daysFromCivil ((ymdOfTime x).year + 1) (ymdOfTime x).month
        (ymdOfTime x).day * 86400000 + msOfDay x)
        = daysFromCivil ((ymdOfTime x).year + 1) (ymdOfTime x).month (ymdOfTime x).day := by
      simp only [dayNumber]
      omega
    rw [ymdOfTime, civilFromDays_year, hq]
  rw [hgy, hyr]

/-- Per-unit core of boundary adjacency: one unit past the unit start is
the unit start of the one-unit shift (for month: when the day of month
also exists in the following month). -/
theorem coreAdjacency (u : DateUnit) (ws x : ℤ) (hws : 0 ≤ ws ∧ ws ≤ 6)
    (hcond : u ≠ .month ∨
      (ymdOfTime x).day ≤ daysInMonth (ymdOfTime x).year ((ymdOfTime x).month + 1)) :
    shiftF 1 u (startOfF u ws x) = startOfF u ws (shiftF 1 u x) := by
  cases u
  case millisecond => rw [shiftF_ms, shiftF_ms, startOfF_ms, startOfF_ms]
  case second => rw [shiftF_second, shiftF_second, startOfF_second, startOfF_second]; omega
  case minute => rw [shiftF_minute, shiftF_minute, startOfF_minute, startOfF_minute]; omega
  case hour => rw [shiftF_hour, shiftF_hour, startOfF_hour, startOfF_hour]; omega
  case day => rw [shiftF_day, shiftF_day, startOfF_day, startOfF_day]; omega
  case week =>
    rw [shiftF_week, shiftF_week, startOfF_week _ _ hws, startOfF_week _ _ hws]
    omega
  case month =>
    have hc : (ymdOfTime x).day
        ≤ daysInMonth (ymdOfTime x).year ((ymdOfTime x).month + 1) := by
      rcases hcond with h | h
      · exact absurd rfl h
      · exact h
    have hb := civilFromDays_bounds (dayNumber x)
    rw [startOfF_month, shiftF_month_at_start (by simp only [ymdOfTime]; exact ⟨hb.1, hb.2.1⟩),
      startOfF_month_shift_no_overflow hc]
  case year =>
    rw [startOfF_year, shiftF_year_at_start, startOfF_year_shift]

/-- The two millisecond shifts around `endOf` cancel against the core
adjacency equation. -/
theorem coreAdjacencyEnd (u : DateUnit) (ws x : ℤ) (hws : 0 ≤ ws ∧ ws ≤ 6)
    (hcond : u ≠ .month ∨
      (ymdOfTime x).day ≤ daysInMonth (ymdOfTime x).year ((ymdOfTime x).month + 1)) :
    shiftF 1 .millisecond (shiftF (-1) .millisecond (shiftF 1 u (startOfF u ws x)))
      = startOfF u ws (shiftF 1 u x) := by
  rw [shiftF_ms, shiftF_ms]
  have h := coreAdjacency u ws x hws hcond
  omega

/-- C3, counterexample: boundary adjacency fails for the month unit at
2023-01-31 (UTC fields): one millisecond past `endOf(i, month)` is
2023-02-01T00:00Z, but `startOf(shift(i, 1, month), month)` is
2023-03-01T00:00Z, because the one-month shift overflows to March 3. -/
theorem boundary_adjacency_fails_for_month :
    shiftDate 0 (endOf 0 1675123200000 .month (some { utc := some true })) 1
        .millisecond (some { utc := some true })
      ≠ startOf 0 (shiftDate 0 1675123200000 1 .month (some { utc := some true }))
          .month (some { utc := some true }) := by decide

/-- C3 as amended: boundary adjacency
`shift(endOf(i, u), 1, millisecond) == startOf(shift(i, 1, u), u)` holds
for every instant, options value (week start in 0..6) and fixed offset,
for every unit except month; for month it holds whenever the day of month
of `i` (in the selected field view) does not exceed the length of the
following month. -/
theorem boundary_adjacency_amended (tz t : ℤ) (u : DateUnit)
    (opts : Option DateHelperOptions)
    (hws : 0 ≤ weekStartOf opts ∧ weekStartOf opts ≤ 6)
    (hcond : u ≠ .month ∨
      (ymdOfTime (fieldView (useUtcOf opts) tz t)).day
        ≤ daysInMonth (ymdOfTime (fieldView (useUtcOf opts) tz t)).year
            ((ymdOfTime (fieldView (useUtcOf opts) tz t)).month + 1)) :
    shiftDate tz (endOf tz t u opts) 1 .millisecond opts
      = startOf tz (shiftDate tz t 1 u opts) u opts := by
  by_cases hms : u = .millisecond
  · subst hms
    rfl
  · rw [endOf_eq tz t u opts hms, shiftDate_eq, shiftDate_eq, startOf_eq,
      onFields_comp, onFields_comp]
    cases hb : useUtcOf opts
    · rw [hb] at hcond
      simp only [onFields, Bool.false_eq_true, if_false, fieldView] at hcond ⊢
      rw [coreAdjacencyEnd u (weekStartOf opts) (t + tz) hws hcond]
    · rw [hb] at hcond
      simp only [onFields, if_true, fieldView] at hcond ⊢
      rw [coreAdjacencyEnd u (weekStartOf opts) t hws hcond]

/-- Witness: boundary adjacency at the day unit around 2023-01-31Z. -/
theorem boundary_adjacency_amended_witness :
    shiftDate 0 (endOf 0 1675123200000 .day (some { utc := some true })) 1
        .millisecond (some { utc := some true })
      = startOf 0 (shiftDate 0 1675123200000 1 .day (some { utc := some true }))
          .day (some { utc := some true }) :=
  boundary_adjacency_amended 0 1675123200000 .day (some { utc := some true })
    (by decide) (Or.inl (by decide))

/-! ## Order lemmas for the `startOf` cores (buckets are intervals) -/

theorem daysBeforeYear_mono {y1 y2 : ℤ} (h : y1 ≤ y2) :
    daysBeforeYear y1 ≤ daysBeforeYear y2 := by
  have := daysToYear_mono h
  simp only [daysBeforeYear]
  omega

/-- The timestamp sits between its month start and the next month start. -/
theorem ymdOfTime_bracket (x : ℤ) :
    86400000 * (daysBeforeYear (ymdOfTime x).year
        + daysBeforeMonth (ymdOfTime x).year (ymdOfTime x).month) ≤ x ∧
      x < 86400000 * (daysBeforeYear (ymdOfTime x).year
        + daysBeforeMonth (ymdOfTime x).year ((ymdOfTime x).month + 1)) := by
  have hb := dayNumber_month_bracket (dayNumber x)
  simp only [ymdOfTime]
  simp only [dayNumber] at *
  omega

/-- The timestamp sits between its year start and the next year start. -/
theorem ymdOfTime_year_bracket (x : ℤ) :
    86400000 * daysBeforeYear (ymdOfTime x).year ≤ x ∧
      x < 86400000 * daysBeforeYear ((ymdOfTime x).year + 1) := by
  have hy := yearOfDay_spec (dayNumber x)
  simp only [ymdOfTime, civilFromDays_year]
  simp only [dayNumber] at *
  omega

/-- Lexicographic order on (year, month) pairs gives the order of month
starts; month 13 reads as January of the next year. -/
theorem monthStart_lex_le {y1 m1 y2 m2 : ℤ} (h1 : 1 ≤ m1 ∧ m1 ≤ 13)
    (h2 : 1 ≤ m2 ∧ m2 ≤ 13)
    (hlex : y1 < y2 ∨ (y1 = y2 ∧ m1 ≤ m2)) :
    daysBeforeYear y1 + daysBeforeMonth y1 m1
      ≤ daysBeforeYear y2 + daysBeforeMonth y2 m2 := by
  rcases hlex with h | h
  · have e1 : daysBeforeMonth y1 m1 ≤ daysBeforeMonth y1 13 :=
      monthTable_mono (leapBit_nonneg y1).1 h1.2 h1.1 (le_refl 13)
    have e2 := daysBeforeMonth_one y2
    have e3 : daysBeforeMonth y2 1 ≤ daysBeforeMonth y2 m2 :=
      monthTable_mono (leapBit_nonneg y2).1 h2.1 (le_refl 1) h2.2
    have e4 := monthTable_year y1
    have e5 := daysBeforeYear_succ y1
    have e6 : daysBeforeYear (y1 + 1) ≤ daysBeforeYear y2 :=
      daysBeforeYear_mono (by omega)
    have hL := leapBit_nonneg y1
    omega
  · obtain ⟨rfl, hm⟩ := h
    have := monthTable_mono (leapBit_nonneg y1).1 hm h1.1 h2.2
    simp only [daysBeforeMonth] at *
    omega

/-- The month start of a calendar date pair, as a timestamp, is a fixed
point of the `startOf .month` core. -/
theorem startOfF_month_fixed {y m : ℤ} (ws : ℤ) (hm : 1 ≤ m ∧ m ≤ 12) :
    startOfF .month ws (86400000 * (daysBeforeYear y + daysBeforeMonth y m))
      = 86400000 * (daysBeforeYear y + daysBeforeMonth y m) := by
  rw [startOfF_month, ymdOfTime_monthStart y m hm]

/-- Month pair 13 normalises to January of the next year. -/
theorem monthStart_thirteen (y : ℤ) :
    daysBeforeYear y + daysBeforeMonth y 13
      = daysBeforeYear (y + 1) + daysBeforeMonth (y + 1) 1 := by
  have e1 := monthTable_year y
  have e2 := daysBeforeYear_succ y
  have e3 := daysBeforeMonth_one (y + 1)
  omega

/-- A year start, as a timestamp, is a fixed point of the `startOf .year`
core. -/
theorem startOfF_year_fixed (ws y : ℤ) :
    startOfF .year ws (86400000 * daysBeforeYear y)
      = 86400000 * daysBeforeYear y := by
  have hdim := daysInMonth_one y
  have he : 86400000 * daysBeforeYear y = daysFromCivil y 1 1 * 86400000 + 0 := by
    rw [daysFromCivil_one, daysBeforeMonth_one]; ring
  have hS : ymdOfTime (86400000 * daysBeforeYear y) = ⟨y, 1, 1⟩ := by
    rw [he]
    exact ymdOfTime_mk ⟨le_refl 1, by omega⟩ ⟨le_refl 1, by omega⟩ ⟨le_refl 0, by omega⟩
  rw [startOfF_year, hS]

/-- The `startOf` cores floor: the result is at or before the input. -/
theorem startOfF_le (u : DateUnit) (ws x : ℤ) (hws : 0 ≤ ws ∧ ws ≤ 6) :
    startOfF u ws x ≤ x := by
  cases u
  case millisecond => exact le_refl x
  case second => rw [startOfF_second]; omega
  case minute => rw [startOfF_minute]; omega
  case hour => rw [startOfF_hour]; omega
  case day => rw [startOfF_day]; omega
  case week => rw [startOfF_week _ _ hws]; omega
  case month =>
    rw [startOfF_month]
    exact (ymdOfTime_bracket x).1
  case year =>
    rw [startOfF_year]
    exact (ymdOfTime_year_bracket x).1

/-- The input lies strictly before one unit past its unit start. -/
theorem lt_shift_startOfF (u : DateUnit) (ws x : ℤ) (hws : 0 ≤ ws ∧ ws ≤ 6) :
    x < shiftF 1 u (startOfF u ws x) := by
  cases u
  case millisecond => rw [shiftF_ms, startOfF_ms]; omega
  case second => rw [startOfF_second, shiftF_second]; omega
  case minute => rw [startOfF_minute, shiftF_minute]; omega
  case hour => rw [startOfF_hour, shiftF_hour]; omega
  case day => rw [startOfF_day, shiftF_day]; omega
  case week => rw [startOfF_week _ _ hws, shiftF_week]; omega
  case month =>
    have hb := ymdOfTime_bounds x
    rw [startOfF_month, shiftF_month_at_start ⟨hb.1, hb.2.1⟩]
    exact (ymdOfTime_bracket x).2
  case year =>
    rw [startOfF_year, shiftF_year_at_start]
    exact (ymdOfTime_year_bracket x).2

/-- One unit past a unit start is itself a unit start. -/
theorem startOfF_boundary_fixed (u : DateUnit) (ws x : ℤ) (hws : 0 ≤ ws ∧ ws ≤ 6) :
    startOfF u ws (shiftF 1 u (startOfF u ws x)) = shiftF 1 u (startOfF u ws x) := by
  cases u
  case millisecond => rfl
  case second => rw [startOfF_second, shiftF_second, startOfF_second]; omega
  case minute => rw [startOfF_minute, shiftF_minute, startOfF_minute]; omega
  case hour => rw [startOfF_hour, shiftF_hour, startOfF_hour]; omega
  case day => rw [startOfF_day, shiftF_day, startOfF_day]; omega
  case week =>
    rw [startOfF_week _ _ hws, shiftF_week, startOfF_week _ _ hws]
    omega
  case month =>
    have hb := ymdOfTime_bounds x
    have hns : shiftF 1 .month (startOfF .month ws x)
        = 86400000 * (daysBeforeYear (ymdOfTime x).year
            + daysBeforeMonth (ymdOfTime x).year ((ymdOfTime x).month + 1)) := by
      rw [startOfF_month]
      exact shiftF_month_at_start ⟨hb.1, hb.2.1⟩
    rw [hns]
    by_cases h12 : (ymdOfTime x).month ≤ 11
    · exact startOfF_month_fixed ws ⟨by omega, by omega⟩
    · have hm12 : (ymdOfTime x).month = 12 := by omega
      rw [hm12]
      have e13 : (12 : ℤ) + 1 = 13 := by norm_num
      rw [e13, monthStart_thirteen]
      exact startOfF_month_fixed ws ⟨le_refl 1, by norm_num⟩
  case year =>
    have hns : shiftF 1 .year (startOfF .year ws x)
        = 86400000 * daysBeforeYear ((ymdOfTime x).year + 1) := by
      rw [startOfF_year]
      exact shiftF_year_at_start _
    rw [hns]
    exact startOfF_year_fixed ws _

/-- The `startOf` cores are monotone. -/
theorem startOfF_mono (u : DateUnit) (ws : ℤ) {x1 x2 : ℤ} (hws : 0 ≤ ws ∧ ws ≤ 6)
    (h : x1 ≤ x2) : startOfF u ws x1 ≤ startOfF u ws x2 := by
  cases u
  case millisecond => exact h
  case second => rw [startOfF_second, startOfF_second]; omega
  case minute => rw [startOfF_minute, startOfF_minute]; omega
  case hour => rw [startOfF_hour, startOfF_hour]; omega
  case day => rw [startOfF_day, startOfF_day]; omega
  case week => rw [startOfF_week _ _ hws, startOfF_week _ _ hws]; omega
  case month =>
    rw [startOfF_month, startOfF_month]
    have hb1 := ymdOfTime_bounds x1
    have hb2 := ymdOfTime_bounds x2
    have hbr1 := ymdOfTime_bracket x1
    have hbr2 := ymdOfTime_bracket x2
    rcases lt_trichotomy (ymdOfTime x1).year (ymdOfTime x2).year with hy | hy | hy
    · have := monthStart_lex_le ⟨hb1.1, by omega⟩ ⟨hb2.1, by omega⟩ (Or.inl hy)
      omega
    · by_cases hm : (ymdOfTime x1).month ≤ (ymdOfTime x2).month
      · have := monthStart_lex_le ⟨hb1.1, by omega⟩ ⟨hb2.1, by omega⟩
          (Or.inr ⟨hy, hm⟩)
        omega
      · exfalso
        have := @monthStart_lex_le (ymdOfTime x2).year ((ymdOfTime x2).month + 1)
          (ymdOfTime x1).year (ymdOfTime x1).month
          ⟨by omega, by omega⟩ ⟨hb1.1, by omega⟩ (Or.inr ⟨hy.symm, by omega⟩)
        omega
    · exfalso
      have := @monthStart_lex_le (ymdOfTime x2).year ((ymdOfTime x2).month + 1)
        (ymdOfTime x1).year (ymdOfTime x1).month
        ⟨by omega, by omega⟩ ⟨hb1.1, by omega⟩ (Or.inl hy)
      omega
  case year =>
    rw [startOfF_year, startOfF_year]
    have hbr1 := ymdOfTime_year_bracket x1
    have hbr2 := ymdOfTime_year_bracket x2
    have hy : (ymdOfTime x1).year ≤ (ymdOfTime x2).year := by
      by_contra hgt
      push_neg at hgt
      have := daysBeforeYear_mono (show (ymdOfTime x2).year + 1 ≤ (ymdOfTime x1).year
        by omega)
      omega
    have := daysBeforeYear_mono hy
    omega

theorem daysInMonth_twelve (y : ℤ) : daysInMonth y 12 = 31 := by
  have e1 := monthTable_year y
  have e2 := daysBeforeMonth_twelve y
  simp only [daysInMonth] at *
  have e13 : (12 : ℤ) + 1 = 13 := by norm_num
  rw [e13]
  omega

/-- One millisecond before the next unit start still belongs to the same
bucket: its unit start is the original unit start. -/
theorem startOfF_before_next (u : DateUnit) (ws x : ℤ) (hws : 0 ≤ ws ∧ ws ≤ 6) :
    startOfF u ws (shiftF 1 u (startOfF u ws x) - 1) = startOfF u ws x := by
  cases u
  case millisecond =>
    simp only [startOfF_ms, shiftF_ms]
    omega
  case second => simp only [startOfF_second, shiftF_second]; omega
  case minute => simp only [startOfF_minute, shiftF_minute]; omega
  case hour => simp only [startOfF_hour, shiftF_hour]; omega
  case day => simp only [startOfF_day, shiftF_day]; omega
  case week =>
    have hcol : ∀ v : ℤ, startOfF .week ws v
        = v - v % 86400000 - 86400000 * ((v / 86400000 + 4 - ws) % 7) :=
      fun v => startOfF_week ws v hws
    simp only [hcol, shiftF_week]
    omega
  case month =>
    have hb := ymdOfTime_bounds x
    have hdim := daysInMonth_bounds (y := (ymdOfTime x).year) (m := (ymdOfTime x).month)
      ⟨hb.1, hb.2.1⟩
    have hns : shiftF 1 .month (startOfF .month ws x)
        = 86400000 * (daysBeforeYear (ymdOfTime x).year
            + daysBeforeMonth (ymdOfTime x).year ((ymdOfTime x).month + 1)) := by
      rw [startOfF_month]
      exact shiftF_month_at_start ⟨hb.1, hb.2.1⟩
    have he : shiftF 1 .month (startOfF .month ws x) - 1
        = daysFromCivil (ymdOfTime x).year (ymdOfTime x).month
            (daysInMonth (ymdOfTime x).year (ymdOfTime x).month) * 86400000
          + 86399999 := by
      rw [hns]
      simp only [daysFromCivil, daysInMonth]
      ring
    have hmk := ymdOfTime_mk (y := (ymdOfTime x).year) (m := (ymdOfTime x).month)
      (d := daysInMonth (ymdOfTime x).year (ymdOfTime x).month) (r := 86399999)
      ⟨hb.1, hb.2.1⟩ ⟨by omega, le_refl _⟩ ⟨by norm_num, by norm_num⟩
    rw [he, startOfF_month, startOfF_month, hmk]
  case year =>
    have hb := ymdOfTime_bounds x
    have hd12 := daysInMonth_twelve (ymdOfTime x).year
    have hns : shiftF 1 .year (startOfF .year ws x)
        = 86400000 * daysBeforeYear ((ymdOfTime x).year + 1) := by
      rw [startOfF_year]
      exact shiftF_year_at_start _
    have he : shiftF 1 .year (startOfF .year ws x) - 1
        = daysFromCivil (ymdOfTime x).year 12 31 * 86400000 + 86399999 := by
      rw [hns]
      have e2 := daysBeforeYear_succ (ymdOfTime x).year
      have e4 := daysBeforeMonth_twelve (ymdOfTime x).year
      simp only [daysFromCivil]
      omega
    have hmk := ymdOfTime_mk (y := (ymdOfTime x).year) (m := 12) (d := 31)
      (r := 86399999) ⟨by norm_num, le_refl 12⟩ ⟨by norm_num, by omega⟩
      ⟨by norm_num, by norm_num⟩
    rw [he, startOfF_year, startOfF_year, hmk]

/-- Everything in the bucket of `t` is at most one millisecond before the
next unit start. -/
theorem startOfF_bucket_max (u : DateUnit) (ws : ℤ) {x t : ℤ}
    (hws : 0 ≤ ws ∧ ws ≤ 6)
    (hx : startOfF u ws x = startOfF u ws t) :
    x ≤ shiftF 1 u (startOfF u ws t) - 1 := by
  by_contra hgt
  push_neg at hgt
  have h1 := startOfF_mono u ws hws
    (show shiftF 1 u (startOfF u ws t) ≤ x by omega)
  rw [startOfF_boundary_fixed u ws t hws] at h1
  have h2 := lt_shift_startOfF u ws t hws
  have h3 := startOfF_le u ws t hws
  omega

/-- A millisecond shift is plain addition for both accessor sets. -/
theorem shiftDate_ms (tz x v : ℤ) (opts : Option DateHelperOptions) :
    shiftDate tz x v .millisecond opts = x + v := by
  rw [shiftDate_eq]
  cases useUtcOf opts <;>
    simp only [onFields, Bool.false_eq_true, if_false, if_true, shiftF_ms] <;>
    ring

/-- C5: `endOf(i, millisecond)` is the identity; for every other unit
`endOf(i, u) == shift(shift(startOf(i, u), 1, u), -1, millisecond)`, the
start of the next bucket exceeds it by exactly one millisecond, it lies in
the bucket of `i`, and it is the last instant of that bucket. -/
theorem endOf_last_millisecond (tz t : ℤ) (u : DateUnit)
    (opts : Option DateHelperOptions)
    (hws : 0 ≤ weekStartOf opts ∧ weekStartOf opts ≤ 6) :
    endOf tz t .millisecond opts = t ∧
    (u ≠ .millisecond →
      endOf tz t u opts
          = shiftDate tz (shiftDate tz (startOf tz t u opts) 1 u opts) (-1)
              .millisecond opts ∧
      shiftDate tz (startOf tz t u opts) 1 u opts - endOf tz t u opts = 1 ∧
      startOf tz (endOf tz t u opts) u opts = startOf tz t u opts ∧
      ∀ x, startOf tz x u opts = startOf tz t u opts →
        x ≤ endOf tz t u opts) := by
  refine ⟨rfl, fun hms => ?_⟩
  have hdef : endOf tz t u opts
      = shiftDate tz (shiftDate tz (startOf tz t u opts) 1 u opts) (-1)
          .millisecond opts := by
    simp only [endOf, if_neg hms]
  have hend : endOf tz t u opts
      = shiftDate tz (startOf tz t u opts) 1 u opts - 1 := by
    rw [hdef, shiftDate_ms]
    ring
  have hNS : shiftDate tz (startOf tz t u opts) 1 u opts
      = onFields (useUtcOf opts) tz
          (fun x => shiftF 1 u (startOfF u (weekStartOf opts) x)) t := by
    rw [shiftDate_eq, startOf_eq, onFields_comp]
  refine ⟨hdef, by omega, ?_, ?_⟩
  · rw [hend, hNS, startOf_eq, startOf_eq]
    cases hb2 : useUtcOf opts
    · simp only [onFields, Bool.false_eq_true, if_false]
      have e : shiftF 1 u (startOfF u (weekStartOf opts) (t + tz)) - tz - 1 + tz
          = shiftF 1 u (startOfF u (weekStartOf opts) (t + tz)) - 1 := by ring
      rw [e, startOfF_before_next u (weekStartOf opts) (t + tz) hws]
    · simp only [onFields, if_true]
      rw [startOfF_before_next u (weekStartOf opts) t hws]
  · intro x hx
    rw [startOf_eq, startOf_eq] at hx
    rw [hend, hNS]
    cases hb2 : useUtcOf opts
    · rw [hb2] at hx
      simp only [onFields, Bool.false_eq_true, if_false] at hx ⊢
      have hx2 : startOfF u (weekStartOf opts) (x + tz)
          = startOfF u (weekStartOf opts) (t + tz) := by omega
      have := startOfF_bucket_max u (weekStartOf opts) hws hx2
      omega
    · rw [hb2] at hx
      simp only [onFields, if_true] at hx ⊢
      have := startOfF_bucket_max u (weekStartOf opts) hws hx
      omega

/-- Witness: the February 2023 bucket of 2023-02-10Z ends exactly one
millisecond before the start of March. -/
theorem endOf_last_millisecond_witness :
    shiftDate 0 (startOf 0 1675987200000 .month (some { utc := some true })) 1
        .month (some { utc := some true })
      - endOf 0 1675987200000 .month (some { utc := some true }) = 1 :=
  ((endOf_last_millisecond 0 1675987200000 .month (some { utc := some true })
    (by decide)).2 (by decide)).2.1

/-- C10, counterexample: `dateDiff` is not antisymmetric for month and
year: between 2023-01-31 and 2023-03-30 the forward month difference is
58/31 but the backward one is −29/14 (the anchors are computed from
different endpoints and overflow differently). -/
theorem dateDiff_month_not_antisymmetric :
    dateDiff 0 1675123200000 1680134400000 .month
        ≠ -dateDiff 0 1680134400000 1675123200000 .month ∧
      dateDiff 0 1675123200000 1680134400000 .year
        ≠ -dateDiff 0 1680134400000 1675123200000 .year := by
  have hy1 : ymdOfTime ((1680134400000 : ℤ) + 0) = ⟨2023, 3, 30⟩ := by decide
  have hy2 : ymdOfTime ((1675123200000 : ℤ) + 0) = ⟨2023, 1, 31⟩ := by decide
  have ha0f : shiftDate 0 1675123200000 2 .month none = 1680220800000 := by decide
  have haaf : shiftDate 0 1675123200000 1 .month none = 1677801600000 := by decide
  have hnxf : shiftDate 0 1677801600000 1 .month none = 1680480000000 := by decide
  have ha0b : shiftDate 0 1680134400000 (-2) .month none = 1675036800000 := by decide
  have haab : shiftDate 0 1680134400000 (-1) .month none = 1677715200000 := by decide
  have hnxb : shiftDate 0 1677715200000 (-1) .month none = 1675296000000 := by decide
  have h1 : diffInMonths 0 1675123200000 1680134400000 = 58 / 31 := by
    simp only [diffInMonths]
    rw [hy1, hy2]
    norm_num [ha0f, haaf, hnxf]
  have h2 : diffInMonths 0 1680134400000 1675123200000 = -29 / 14 := by
    simp only [diffInMonths]
    rw [hy1, hy2]
    norm_num [ha0b, haab, hnxb]
  have hm : dateDiff 0 1675123200000 1680134400000 .month
      ≠ -dateDiff 0 1680134400000 1675123200000 .month := by
    show diffInMonths 0 1675123200000 1680134400000
        ≠ -diffInMonths 0 1680134400000 1675123200000
    rw [h1, h2]
    norm_num
  refine ⟨hm, ?_⟩
  show diffInMonths 0 1675123200000 1680134400000 / 12
      ≠ -(diffInMonths 0 1680134400000 1675123200000 / 12)
  rw [h1, h2]
  norm_num

/-- C10 as amended: antisymmetry `dateDiff(start, end, u) =
−dateDiff(end, start, u)` holds for every pair of dates for the six
fixed-length units (millisecond, second, minute, hour, day, week); for
month and year the field-walking anchor is computed from `start` and the
identity can fail. -/
theorem dateDiff_antisymm_fixed_units (tz s e : ℤ) (u : DateUnit)
    (h : u = .millisecond ∨ u = .second ∨ u = .minute ∨ u = .hour ∨
      u = .day ∨ u = .week) :
    dateDiff tz s e u = -dateDiff tz e s u := by
  have hneg : ∀ c : ℚ, ((e - s : ℤ) : ℚ) / c = -(((s - e : ℤ) : ℚ) / c) := by
    intro c
    push_cast
    ring
  rcases h with h | h | h | h | h | h <;> subst h <;>
    simp only [dateDiff] <;>
    first
      | (push_cast; ring)
      | exact hneg _

/-- Witness: day-unit antisymmetry over a concrete day-and-a-half span. -/
theorem dateDiff_antisymm_fixed_units_witness :
    dateDiff 0 0 129600000 .day = -dateDiff 0 129600000 0 .day :=
  dateDiff_antisymm_fixed_units 0 0 129600000 .day
    (Or.inr (Or.inr (Or.inr (Or.inr (Or.inl rfl)))))

/-! ## Stateful embedding: `Date` objects as mutable heap cells

JavaScript `Date` values are mutable objects.  The repository's helpers
clone their argument (`cloneDate`, i.e. `new Date(date.getTime())`) and
mutate only the clone through field setters.  To settle the purity claims
we re-run each operation in state-passing style over an explicit heap of
timestamp cells, mirroring every allocation and every setter call, and
prove that existing cells — in particular the argument — are never
written, and that each result is the pure function of the argument values
computed above.  The host clock is an explicit external value read only by
`now`. -/

/-- The heap of live `Date` objects (cell = internal time value). -/
abbrev DateHeap := List ℤ

/-- `new Date(v)`: allocate a fresh cell. -/
def allocDate (h : DateHeap) (v : ℤ) : DateHeap × ℕ :=
  (List.append h [v], List.length h)

/-- `date.getTime()`: read a cell. -/
def readCell (h : DateHeap) (r : ℕ) : ℤ := List.getD h r 0

/-- A setter call on a `Date`: overwrite its cell in place. -/
def writeCell (h : DateHeap) (r : ℕ) (v : ℤ) : DateHeap := List.set h r v

/-- `cloneDate` from the source: `new Date(date.getTime())`. -/
def cloneDateS (h : DateHeap) (r : ℕ) : DateHeap × ℕ := allocDate h (readCell h r)

/-- `now()`: the only operation reading the host clock, passed here as an
explicit external input. -/
def nowS (clock : ℤ) (h : DateHeap) : DateHeap × ℕ := allocDate h clock

/-- `shiftDate` in state-passing style: clone the argument, then one
`set<Field>(get<Field>() + value)` call on the clone. -/
def shiftDateS (tz : ℤ) (h : DateHeap) (r : ℕ) (value : ℤ) (unit : DateUnit)
    (options : Option DateHelperOptions) : DateHeap × ℕ :=
  let c := cloneDateS h r
  (writeCell c.1 c.2 (onFields (useUtcOf options) tz (shiftF value unit)
    (readCell c.1 c.2)), c.2)

/-- `modifyDate` in state-passing style (the `date` argument made
explicit; its `now()` default is `nowS`). -/
def modifyDateS (tz : ℤ) (h : DateHeap) (value : ℤ) (unit : DateUnit)
    (r : ℕ) : DateHeap × ℕ :=
  shiftDateS tz h r value unit none

/-- `diffInMonths` in state-passing style: pure field reads on both
arguments plus three `shiftDate` calls, each allocating a clone. -/
def diffInMonthsS (tz : ℤ) (h : DateHeap) (rs re : ℕ) : DateHeap × ℚ :=
  if readCell h rs = readCell h re then (h, 0)
  else
    let sign : ℤ := if readCell h rs < readCell h re then 1 else -1
    let months : ℤ :=
      ((ymdOfTime (readCell h re + tz)).year - (ymdOfTime (readCell h rs + tz)).year) * 12
        + ((ymdOfTime (readCell h re + tz)).month - (ymdOfTime (readCell h rs + tz)).month)
    let s1 := shiftDateS tz h rs months .month none
    let months2 : ℤ :=
      if (0 < sign ∧ readCell s1.1 re < readCell s1.1 s1.2)
          ∨ (sign < 0 ∧ readCell s1.1 s1.2 < readCell s1.1 re)
      then months - sign else months
    let s2 := shiftDateS tz s1.1 rs months2 .month none
    let s3 := shiftDateS tz s2.1 s2.2 sign .month none
    let interval : ℤ := readCell s3.1 s3.2 - readCell s3.1 s2.2
    if interval = 0 then (s3.1, (months2 : ℚ))
    else (s3.1, (months2 : ℚ)
      + ((readCell s3.1 re - readCell s3.1 s2.2 : ℤ) : ℚ) / (interval : ℚ) * (sign : ℚ))

/-- `dateDiff` in state-passing style: the fixed-length units only read
the two arguments; month and year run the field walk. -/
def dateDiffS (tz : ℤ) (h : DateHeap) (rs re : ℕ) (unit : DateUnit) : DateHeap × ℚ :=
  match unit with
  | .month => diffInMonthsS tz h rs re
  | .year =>
    let d := diffInMonthsS tz h rs re
    (d.1, d.2 / 12)
  | u => (h, dateDiff tz (readCell h rs) (readCell h re) u)

/-- The `day` case of `startOf` in state-passing style. -/
def startOfDayS (useUtc : Bool) (tz : ℤ) (h : DateHeap) (r : ℕ) : DateHeap × ℕ :=
  let c := cloneDateS h r
  (writeCell c.1 c.2 (onFields useUtc tz (setHours4F 0 0 0 0) (readCell c.1 c.2)), c.2)

/-- `startOf` in state-passing style: clone, then the per-unit setter
calls on the clone (two sequential setter calls for month and year). -/
def startOfS (tz : ℤ) (h : DateHeap) (r : ℕ) (unit : DateUnit)
    (options : Option DateHelperOptions) : DateHeap × ℕ :=
  let useUtc := useUtcOf options
  match unit with
  | .millisecond => cloneDateS h r
  | .second =>
    let c := cloneDateS h r
    (writeCell c.1 c.2 (onFields useUtc tz (setMsF 0) (readCell c.1 c.2)), c.2)
  | .minute =>
    let c := cloneDateS h r
    (writeCell c.1 c.2 (onFields useUtc tz (setSec2F 0 0) (readCell c.1 c.2)), c.2)
  | .hour =>
    let c := cloneDateS h r
    (writeCell c.1 c.2 (onFields useUtc tz (setMin3F 0 0 0) (readCell c.1 c.2)), c.2)
  | .day => startOfDayS useUtc tz h r
  | .week =>
    let s := startOfDayS useUtc tz h r
    let day := if useUtc then weekDay (readCell s.1 s.2)
               else weekDay (readCell s.1 s.2 + tz)
    let offset := (day - weekStartOf options + 7).tmod 7
    shiftDateS tz s.1 s.2 (-offset) .day options
  | .month =>
    let c := cloneDateS h r
    let h2 := writeCell c.1 c.2 (onFields useUtc tz (setDateF 1) (readCell c.1 c.2))
    (writeCell h2 c.2 (onFields useUtc tz (setHours4F 0 0 0 0) (readCell h2 c.2)), c.2)
  | .year =>
    let c := cloneDateS h r
    let h2 := writeCell c.1 c.2 (onFields useUtc tz (setMonth2F 0 1) (readCell c.1 c.2))
    (writeCell h2 c.2 (onFields useUtc tz (setHours4F 0 0 0 0) (readCell h2 c.2)), c.2)

/-- `endOf` in state-passing style. -/
def endOfS (tz : ℤ) (h : DateHeap) (r : ℕ) (unit : DateUnit)
    (options : Option DateHelperOptions) : DateHeap × ℕ :=
  if unit = .millisecond then cloneDateS h r
  else
    let s := startOfS tz h r unit options
    let n := shiftDateS tz s.1 s.2 1 unit options
    shiftDateS tz n.1 n.2 (-1) .millisecond options

/-- `isSame` in state-passing style: two `startOf` runs, then a value
comparison. -/
def isSameS (tz : ℤ) (h : DateHeap) (ra rb : ℕ) (unit : DateUnit)
    (options : Option DateHelperOptions) : DateHeap × Bool :=
  let sa := startOfS tz h ra unit options
  let sb := startOfS tz sa.1 rb unit options
  (sb.1, readCell sb.1 sa.2 == readCell sb.1 sb.2)

/-! ### Heap lemmas and per-operation specifications -/

/-- One stateful step: existing cells are unchanged, the heap only grows,
and the returned reference is a live cell holding `val`. -/
def heapStep (h h' : DateHeap) (r' : ℕ) (val : ℤ) : Prop :=
  (∀ i, i < List.length h → readCell h' i = readCell h i) ∧
  List.length h ≤ List.length h' ∧ r' < List.length h' ∧ readCell h' r' = val

theorem readCell_append_lt {h : DateHeap} {i : ℕ} (v : ℤ) (hi : i < List.length h) :
    readCell (List.append h [v]) i = readCell h i := by
  show readCell (h ++ [v]) i = readCell h i
  simp only [readCell]
  rw [List.getD_append _ _ _ _ hi]

theorem readCell_append_self (h : DateHeap) (v : ℤ) :
    readCell (List.append h [v]) (List.length h) = v := by
  show readCell (h ++ [v]) (List.length h) = v
  simp [readCell, List.getD_append_right]

theorem readCell_set_self {h : DateHeap} {r : ℕ} (v : ℤ) (hr : r < List.length h) :
    readCell (writeCell h r v) r = v := by
  simp [readCell, writeCell, List.getD, List.getElem?_set, hr]

theorem readCell_set_ne {h : DateHeap} {r i : ℕ} (v : ℤ) (hne : i ≠ r) :
    readCell (writeCell h r v) i = readCell h i := by
  simp [readCell, writeCell, List.getD, List.getElem?_set, hne.symm]

theorem length_writeCell (h : DateHeap) (r : ℕ) (v : ℤ) :
    List.length (writeCell h r v) = List.length h := by
  simp [writeCell]

theorem length_append_one (h : DateHeap) (v : ℤ) :
    List.length (List.append h [v]) = List.length h + 1 := by
  show List.length (h ++ [v]) = List.length h + 1
  simp

theorem heapStep_trans {h h1 h2 : DateHeap} {r1 r2 : ℕ} {v1 v2 : ℤ}
    (s1 : heapStep h h1 r1 v1) (s2 : heapStep h1 h2 r2 v2) :
    heapStep h h2 r2 v2 ∧ readCell h2 r1 = v1 := by
  obtain ⟨f1, l1, q1, e1⟩ := s1
  obtain ⟨f2, l2, q2, e2⟩ := s2
  exact ⟨⟨fun i hi => (f2 i (lt_of_lt_of_le hi l1)).trans (f1 i hi),
    le_trans l1 l2, q2, e2⟩, (f2 r1 q1).trans e1⟩

theorem cloneDateS_spec (h : DateHeap) (r : ℕ) :
    heapStep h (cloneDateS h r).1 (cloneDateS h r).2 (readCell h r) := by
  refine ⟨fun i hi => readCell_append_lt _ hi, ?_, ?_, readCell_append_self h _⟩
  · simp only [cloneDateS, allocDate, length_append_one]
    omega
  · simp only [cloneDateS, allocDate, length_append_one]
    omega

/-- A clone followed by one in-place update of the clone. -/
theorem clone_write_spec (h : DateHeap) (r : ℕ) (f : ℤ → ℤ) :
    heapStep h
      (writeCell (cloneDateS h r).1 (cloneDateS h r).2
        (f (readCell (cloneDateS h r).1 (cloneDateS h r).2)))
      (cloneDateS h r).2 (f (readCell h r)) := by
  have hc := cloneDateS_spec h r
  obtain ⟨fr, le, lt, e⟩ := hc
  refine ⟨?_, ?_, ?_, ?_⟩
  · intro i hi
    rw [readCell_set_ne _ (show i ≠ (cloneDateS h r).2 by
        simp only [cloneDateS, allocDate]; omega)]
    exact fr i hi
  · rw [length_writeCell]; exact le
  · rw [length_writeCell]; exact lt
  · rw [readCell_set_self _ lt, e]

theorem shiftDateS_spec (tz : ℤ) (h : DateHeap) (r : ℕ) (value : ℤ) (unit : DateUnit)
    (o : Option DateHelperOptions) :
    heapStep h (shiftDateS tz h r value unit o).1 (shiftDateS tz h r value unit o).2
      (shiftDate tz (readCell h r) value unit o) := by
  rw [shiftDate_eq]
  exact clone_write_spec h r (onFields (useUtcOf o) tz (shiftF value unit))

theorem startOfDayS_spec (b : Bool) (tz : ℤ) (h : DateHeap) (r : ℕ) :
    heapStep h (startOfDayS b tz h r).1 (startOfDayS b tz h r).2
      (startOfDayF b tz (readCell h r)) :=
  clone_write_spec h r (onFields b tz (setHours4F 0 0 0 0))

/-- A clone followed by two in-place updates of the clone. -/
theorem clone_write2_spec (h : DateHeap) (r : ℕ) (f g : ℤ → ℤ) :
    heapStep h
      (writeCell
        (writeCell (cloneDateS h r).1 (cloneDateS h r).2
          (g (readCell (cloneDateS h r).1 (cloneDateS h r).2)))
        (cloneDateS h r).2
        (f (readCell
          (writeCell (cloneDateS h r).1 (cloneDateS h r).2
            (g (readCell (cloneDateS h r).1 (cloneDateS h r).2)))
          (cloneDateS h r).2)))
      (cloneDateS h r).2 (f (g (readCell h r))) := by
  have h1 := clone_write_spec h r g
  obtain ⟨fr, le, lt, e⟩ := h1
  refine ⟨?_, ?_, ?_, ?_⟩
  · intro i hi
    rw [readCell_set_ne _ (show i ≠ (cloneDateS h r).2 by
        simp only [cloneDateS, allocDate]; omega)]
    exact fr i hi
  · rw [length_writeCell]; exact le
  · rw [length_writeCell]; exact lt
  · rw [readCell_set_self _ lt, e]

theorem startOfS_spec (tz : ℤ) (h : DateHeap) (r : ℕ) (unit : DateUnit)
    (o : Option DateHelperOptions) :
    heapStep h (startOfS tz h r unit o).1 (startOfS tz h r unit o).2
      (startOf tz (readCell h r) unit o) := by
  cases unit
  case millisecond => exact cloneDateS_spec h r
  case second => exact clone_write_spec h r (onFields (useUtcOf o) tz (setMsF 0))
  case minute => exact clone_write_spec h r (onFields (useUtcOf o) tz (setSec2F 0 0))
  case hour => exact clone_write_spec h r (onFields (useUtcOf o) tz (setMin3F 0 0 0))
  case day => exact startOfDayS_spec (useUtcOf o) tz h r
  case week =>
    have hs := startOfDayS_spec (useUtcOf o) tz h r
    have hsh := shiftDateS_spec tz (startOfDayS (useUtcOf o) tz h r).1
      (startOfDayS (useUtcOf o) tz h r).2
      (-(((if useUtcOf o then
            weekDay (readCell (startOfDayS (useUtcOf o) tz h r).1
              (startOfDayS (useUtcOf o) tz h r).2)
          else weekDay (readCell (startOfDayS (useUtcOf o) tz h r).1
              (startOfDayS (useUtcOf o) tz h r).2 + tz))
        - weekStartOf o + 7).tmod 7)) .day o
    have htr := (heapStep_trans hs hsh).1
    have hval : shiftDate tz
        (readCell (startOfDayS (useUtcOf o) tz h r).1 (startOfDayS (useUtcOf o) tz h r).2)
        (-(((if useUtcOf o then
              weekDay (readCell (startOfDayS (useUtcOf o) tz h r).1
                (startOfDayS (useUtcOf o) tz h r).2)
            else weekDay (readCell (startOfDayS (useUtcOf o) tz h r).1
                (startOfDayS (useUtcOf o) tz h r).2 + tz))
          - weekStartOf o + 7).tmod 7)) .day o
        = startOf tz (readCell h r) .week o := by
      rw [hs.2.2.2]
      rfl
    rw [hval] at htr
    exact htr
  case month =>
    have := clone_write2_spec h r (onFields (useUtcOf o) tz (setHours4F 0 0 0 0))
      (onFields (useUtcOf o) tz (setDateF 1))
    rw [onFields_comp] at this
    exact this
  case year =>
    have := clone_write2_spec h r (onFields (useUtcOf o) tz (setHours4F 0 0 0 0))
      (onFields (useUtcOf o) tz (setMonth2F 0 1))
    rw [onFields_comp] at this
    exact this

theorem endOfS_spec (tz : ℤ) (h : DateHeap) (r : ℕ) (unit : DateUnit)
    (o : Option DateHelperOptions) :
    heapStep h (endOfS tz h r unit o).1 (endOfS tz h r unit o).2
      (endOf tz (readCell h r) unit o) := by
  by_cases hms : unit = .millisecond
  · subst hms
    exact cloneDateS_spec h r
  · have hs := startOfS_spec tz h r unit o
    have hn := shiftDateS_spec tz (startOfS tz h r unit o).1 (startOfS tz h r unit o).2
      1 unit o
    rw [hs.2.2.2] at hn
    have h2 := heapStep_trans hs hn
    have hl := shiftDateS_spec tz
      (shiftDateS tz (startOfS tz h r unit o).1 (startOfS tz h r unit o).2 1 unit o).1
      (shiftDateS tz (startOfS tz h r unit o).1 (startOfS tz h r unit o).2 1 unit o).2
      (-1) .millisecond o
    rw [hn.2.2.2] at hl
    have h3 := heapStep_trans h2.1 hl
    have hdef : endOf tz (readCell h r) unit o
        = shiftDate tz (shiftDate tz (startOf tz (readCell h r) unit o) 1 unit o)
            (-1) .millisecond o := by
      simp only [endOf, if_neg hms]
    have hgoal : endOfS tz h r unit o
        = shiftDateS tz
            (shiftDateS tz (startOfS tz h r unit o).1 (startOfS tz h r unit o).2
              1 unit o).1
            (shiftDateS tz (startOfS tz h r unit o).1 (startOfS tz h r unit o).2
              1 unit o).2 (-1) .millisecond o := by
      simp only [endOfS, if_neg hms]
    rw [hgoal, hdef]
    exact h3.1

theorem diffInMonthsS_spec (tz : ℤ) (h : DateHeap) (rs re : ℕ)
    (hrs : rs < List.length h) (hre : re < List.length h) :
    (∀ i, i < List.length h → readCell (diffInMonthsS tz h rs re).1 i = readCell h i) ∧
    (diffInMonthsS tz h rs re).2 = diffInMonths tz (readCell h rs) (readCell h re) := by
  by_cases h0 : readCell h rs = readCell h re
  · refine ⟨fun i hi => ?_, ?_⟩
    · simp only [diffInMonthsS, if_pos h0]
    · simp only [diffInMonthsS, diffInMonths, if_pos h0]
  · simp only [diffInMonthsS, diffInMonths, if_neg h0]
    set vs := readCell h rs with hvs
    set ve := readCell h re with hve
    set M : ℤ := ((ymdOfTime (ve + tz)).year - (ymdOfTime (vs + tz)).year) * 12
      + ((ymdOfTime (ve + tz)).month - (ymdOfTime (vs + tz)).month) with hM
    obtain ⟨f1, l1, q1, e1⟩ := shiftDateS_spec tz h rs M .month none
    have a1 : readCell (shiftDateS tz h rs M .month none).1 re = ve := by
      rw [f1 re hre]
    rw [a1, e1]
    set sg : ℤ := if vs < ve then 1 else -1 with hsg
    set a0 : ℤ := shiftDate tz vs M .month none with ha0
    set M2 : ℤ := if (0 < sg ∧ ve < a0) ∨ (sg < 0 ∧ a0 < ve) then M - sg else M with hM2
    obtain ⟨f2, l2, q2, e2⟩ := shiftDateS_spec tz
      (shiftDateS tz h rs M .month none).1 rs M2 .month none
    have a2 : readCell (shiftDateS tz (shiftDateS tz h rs M .month none).1 rs
        M2 .month none).1 re = ve := by
      rw [f2 re (lt_of_lt_of_le hre l1), f1 re hre]
    have e2v : readCell (shiftDateS tz (shiftDateS tz h rs M .month none).1 rs
        M2 .month none).1
        (shiftDateS tz (shiftDateS tz h rs M .month none).1 rs M2 .month none).2
        = shiftDate tz vs M2 .month none := by
      rw [e2, f1 rs hrs]
    obtain ⟨f3, l3, q3, e3⟩ := shiftDateS_spec tz
      (shiftDateS tz (shiftDateS tz h rs M .month none).1 rs M2 .month none).1
      (shiftDateS tz (shiftDateS tz h rs M .month none).1 rs M2 .month none).2
      sg .month none
    rw [e2v] at e3
    set aa : ℤ := shiftDate tz vs M2 .month none with haa
    have a3 : readCell (shiftDateS tz
        (shiftDateS tz (shiftDateS tz h rs M .month none).1 rs M2 .month none).1
        (shiftDateS tz (shiftDateS tz h rs M .month none).1 rs M2 .month none).2
        sg .month none).1 re = ve := by
      rw [f3 re (lt_of_lt_of_le hre (le_trans l1 l2)), a2]
    have a4 : readCell (shiftDateS tz
        (shiftDateS tz (shiftDateS tz h rs M .month none).1 rs M2 .month none).1
        (shiftDateS tz (shiftDateS tz h rs M .month none).1 rs M2 .month none).2
        sg .month none).1
        (shiftDateS tz (shiftDateS tz h rs M .month none).1 rs M2 .month none).2
        = aa := by
      rw [f3 _ q2, e2v]
    rw [e3, a3, a4]
    refine ⟨fun i hi => ?_, by split_ifs <;> rfl⟩
    split_ifs
    · rw [f3 i (lt_of_lt_of_le hi (le_trans l1 l2)), f2 i (lt_of_lt_of_le hi l1),
        f1 i hi]
    · rw [f3 i (lt_of_lt_of_le hi (le_trans l1 l2)), f2 i (lt_of_lt_of_le hi l1),
        f1 i hi]

theorem dateDiffS_spec (tz : ℤ) (h : DateHeap) (rs re : ℕ) (u : DateUnit)
    (hrs : rs < List.length h) (hre : re < List.length h) :
    (∀ i, i < List.length h → readCell (dateDiffS tz h rs re u).1 i = readCell h i) ∧
    (dateDiffS tz h rs re u).2 = dateDiff tz (readCell h rs) (readCell h re) u := by
  cases u
  case month => exact diffInMonthsS_spec tz h rs re hrs hre
  case year =>
    obtain ⟨f, e⟩ := diffInMonthsS_spec tz h rs re hrs hre
    refine ⟨f, ?_⟩
    show (diffInMonthsS tz h rs re).2 / 12 = _
    rw [e]
    rfl
  case millisecond => exact ⟨fun i hi => rfl, rfl⟩
  case second => exact ⟨fun i hi => rfl, rfl⟩
  case minute => exact ⟨fun i hi => rfl, rfl⟩
  case hour => exact ⟨fun i hi => rfl, rfl⟩
  case day => exact ⟨fun i hi => rfl, rfl⟩
  case week => exact ⟨fun i hi => rfl, rfl⟩

theorem isSameS_spec (tz : ℤ) (h : DateHeap) (ra rb : ℕ) (u : DateUnit)
    (o : Option DateHelperOptions) (hra : ra < List.length h)
    (hrb : rb < List.length h) :
    (∀ i, i < List.length h → readCell (isSameS tz h ra rb u o).1 i = readCell h i) ∧
    (isSameS tz h ra rb u o).2 = isSame tz (readCell h ra) (readCell h rb) u o := by
  obtain ⟨fa, la, qa, ea⟩ := startOfS_spec tz h ra u o
  obtain ⟨fb, lb, qb, eb⟩ := startOfS_spec tz (startOfS tz h ra u o).1 rb u o
  have hrb2 : readCell (startOfS tz h ra u o).1 rb = readCell h rb := fa rb hrb
  rw [hrb2] at eb
  refine ⟨fun i hi => ?_, ?_⟩
  · show readCell (startOfS tz (startOfS tz h ra u o).1 rb u o).1 i = _
    rw [fb i (lt_of_lt_of_le hi la), fa i hi]
  · show (readCell (startOfS tz (startOfS tz h ra u o).1 rb u o).1
          (startOfS tz h ra u o).2
        == readCell (startOfS tz (startOfS tz h ra u o).1 rb u o).1
          (startOfS tz (startOfS tz h ra u o).1 rb u o).2) = _
    rw [fb _ qa, ea, eb]
    rfl

/-- C7: every calendar operation (shift, diff, startOf, endOf, isSame) is
a deterministic pure function of its explicit inputs: re-run over an
explicit heap of mutable `Date` cells it never writes an existing cell (no
argument is mutated), and its result is the pure function of the argument
cell values proved above — so two invocations with identical arguments
return identical results; only the zero-argument `now` accessor reads the
host clock, which enters the model as an explicit external input to `nowS`
alone. -/
theorem calendar_operations_pure (tz c : ℤ) (h : DateHeap) (ra rb : ℕ) (v : ℤ)
    (u : DateUnit) (o : Option DateHelperOptions)
    (hra : ra < List.length h) (hrb : rb < List.length h) :
    ((∀ i, i < List.length h → readCell (modifyDateS tz h v u ra).1 i = readCell h i) ∧
      readCell (modifyDateS tz h v u ra).1 (modifyDateS tz h v u ra).2
        = modifyDate tz v u (readCell h ra)) ∧
    ((∀ i, i < List.length h → readCell (shiftDateS tz h ra v u o).1 i = readCell h i) ∧
      readCell (shiftDateS tz h ra v u o).1 (shiftDateS tz h ra v u o).2
        = shiftDate tz (readCell h ra) v u o) ∧
    ((∀ i, i < List.length h → readCell (dateDiffS tz h ra rb u).1 i = readCell h i) ∧
      (dateDiffS tz h ra rb u).2 = dateDiff tz (readCell h ra) (readCell h rb) u) ∧
    ((∀ i, i < List.length h → readCell (startOfS tz h ra u o).1 i = readCell h i) ∧
      readCell (startOfS tz h ra u o).1 (startOfS tz h ra u o).2
        = startOf tz (readCell h ra) u o) ∧
    ((∀ i, i < List.length h → readCell (endOfS tz h ra u o).1 i = readCell h i) ∧
      readCell (endOfS tz h ra u o).1 (endOfS tz h ra u o).2
        = endOf tz (readCell h ra) u o) ∧
    ((∀ i, i < List.length h → readCell (isSameS tz h ra rb u o).1 i = readCell h i) ∧
      (isSameS tz h ra rb u o).2 = isSame tz (readCell h ra) (readCell h rb) u o) ∧
    ((∀ i, i < List.length h → readCell (nowS c h).1 i = readCell h i) ∧
      readCell (nowS c h).1 (nowS c h).2 = c) := by
  obtain ⟨fm, lm, qm, em⟩ := shiftDateS_spec tz h ra v u none
  obtain ⟨fs, ls, qs, es⟩ := shiftDateS_spec tz h ra v u o
  obtain ⟨fd, ed⟩ := dateDiffS_spec tz h ra rb u hra hrb
  obtain ⟨fo, lo, qo, eo⟩ := startOfS_spec tz h ra u o
  obtain ⟨fe, le2, qe, ee⟩ := endOfS_spec tz h ra u o
  obtain ⟨fi, ei⟩ := isSameS_spec tz h ra rb u o hra hrb
  exact ⟨⟨fm, em⟩, ⟨fs, es⟩, ⟨fd, ed⟩, ⟨fo, eo⟩, ⟨fe, ee⟩, ⟨fi, ei⟩,
    ⟨fun i hi => readCell_append_lt c hi, readCell_append_self h c⟩⟩

/-- Witness: a one-month public shift and a day-level comparison over
concrete heaps return the pure results. -/
theorem calendar_operations_pure_witness :
    readCell (modifyDateS 0 [1675123200000] 1 .month 0).1
        (modifyDateS 0 [1675123200000] 1 .month 0).2
      = modifyDate 0 1 .month (readCell [1675123200000] 0) ∧
    (isSameS 0 [1675123200000, 1675123200005] 0 1 .day none).2
      = isSame 0 (readCell [1675123200000, 1675123200005] 0)
          (readCell [1675123200000, 1675123200005] 1) .day none :=
  ⟨(calendar_operations_pure 0 0 [1675123200000] 0 0 1 .month none
      (by decide) (by decide)).1.2,
    (calendar_operations_pure 0 0 [1675123200000, 1675123200005] 0 1 1 .day none
      (by decide) (by decide)).2.2.2.2.2.1.2⟩

end IgenDate
